import Mathlib

/-!
# ERL loader (`src/erl/ErlLoader.cpp`)

A shallow embedding of the relocatable-module loader of `elfldr::erl`:
`Align`, `ApplyMipsReloc`, `ImageImpl::Load` and `ImageImpl::ResolveSymbol`.

Conventions of the embedding.

* 32-bit machine integers are natural numbers, reduced modulo `2^32` where the
  C++ arithmetic wraps; `std::int32_t` values are integers.
* The target is the 32-bit MIPS R5900: `std::uintptr_t` is 32 bits wide.
* The file is seen through what `file.Read` delivers: the decoded header
  fields, the decoded section table, the decoded records of a symbol or
  relocation section, and raw bytes for `PROGBITS` contents.  Names are
  carried resolved (the C string at `&shstrtab[sh_name]`, `&strtab_names[st_name]`).
* An access outside an array (`sections[e_shstrndx]`, `shstrtab[sh_name]`,
  `symtab[symbol_number]`, `sections[st_shndx]`, `bytes[offset]`) has no
  defined behaviour in the source; the model stops with `Stop.outOfRange`
  there.
-/

namespace elfldr.erl

/-! ## Constants of `elf.h` -/

/-- Modelled from the spec: `elf.h` is not among the sources. Container type
tag "relocatable" (`ET_REL` of the ELF format). -/
def REL_TYPE : Nat := 1

/-- Modelled from the spec: `elf.h` is not among the sources. Section type
PROGBITS (initialised bytes), with its ELF value. -/
def PROGBITS : Nat := 1

/-- Modelled from the spec: `elf.h` is not among the sources. Section type
RELOC_WITH_ADDEND, with its ELF value. -/
def RELA : Nat := 4

/-- Modelled from the spec: `elf.h` is not among the sources. Section type
NOBITS (zero-initialised, no file backing), with its ELF value. -/
def NOBITS : Nat := 8

/-- Modelled from the spec: `elf.h` is not among the sources. Symbol binding
GLOBAL, with its ELF value. -/
def GLOBAL : Nat := 1

/-- Modelled from the spec: `elf.h` is not among the sources. Symbol binding
WEAK, with its ELF value. -/
def WEAK : Nat := 2

/-- Modelled from the spec: `elf.h` is not among the sources. Symbol type
NOTYPE, with its ELF value. -/
def NOTYPE : Nat := 0

/-- Modelled from the spec: `elf.h` is not among the sources. Symbol type
OBJECT, with its ELF value. -/
def OBJECT : Nat := 1

/-- Modelled from the spec: `elf.h` is not among the sources. Symbol type
FUNC, with its ELF value. -/
def FUNC : Nat := 2

/-- Modelled from the spec: `elf.h` is not among the sources. Symbol type
SECTION, with its ELF value. -/
def SECTION : Nat := 3

/-- Modelled from the spec: `elf.h` is not among the sources. Relocation kind
"32-bit absolute", with its MIPS ABI value. -/
def R_MIPS_32 : Nat := 2

/-- Modelled from the spec: `elf.h` is not among the sources. Relocation kind
"26-bit jump-target", with its MIPS ABI value. -/
def R_MIPS_26 : Nat := 4

/-- Modelled from the spec: `elf.h` is not among the sources. Relocation kind
"high-16 (with carry)", with its MIPS ABI value. -/
def R_MIPS_HI16 : Nat := 5

/-- Modelled from the spec: `elf.h` is not among the sources. Relocation kind
"low-16", with its MIPS ABI value. -/
def R_MIPS_LO16 : Nat := 6

/-- Modelled from the spec: `elf.h` is not among the sources. The value of
`sizeof(elf_section_t)`, the fixed ELF32 section-header record size. -/
def sizeof_elf_section_t : Nat := 40

/-- Modelled from the spec: `elf.h` is not among the sources. The value of
`sizeof(elf_symbol_t)`, the fixed ELF32 symbol record size. -/
def sizeof_elf_symbol_t : Nat := 16

/-- Modelled from the spec: `elf.h` is not among the sources. The value of
`sizeof(elf_reloca_t)`, the fixed ELF32 relocation-with-addend record size. -/
def sizeof_elf_reloca_t : Nat := 12

/-! ## Machine integers -/

/-- The bit pattern of a 32-bit value read as a `std::int32_t`. -/
def toS32 (u : Nat) : Int :=
  if u % 4294967296 < 2147483648 then (u % 4294967296 : Nat) else ((u % 4294967296 : Nat) : Int) - 4294967296

/-- An integer converted to `std::uint32_t`. -/
def toU32 (i : Int) : Nat := (i % 4294967296).toNat

/-- The shift `s << 16` of a `std::int32_t`, the result kept in 32 bits. -/
def shl16 (s : Int) : Int := toS32 (toU32 (s * (65536 : Int)))

/-- The shift `s >> 16` of a `std::int32_t`: arithmetic, the sign is kept. -/
def sar16 (s : Int) : Int := s / (65536 : Int)

/-- All possible ERL load errors. -/
inductive ErlLoadError where
  | FileNotFound
  | NotElf
  | NotMips
  | SizeMismatch
  | OomHit
  | NotRelocatable
  | NoSymbols
  | RelocationError
  deriving DecidableEq, Repr

/-- Why a run of `Load` ends early: an `ErlLoadError` is returned, or an array
is accessed outside its bounds (no defined behaviour in the source). -/
inductive Stop where
  | error (e : ErlLoadError)
  | outOfRange
  deriving DecidableEq, Repr

/-! ## `Align` -/

/-- `Align(alignment_value, align)`. The parameter `align` is an `int`;
`align--` and the conversion back to unsigned in `alignment_value & align`
are the subtraction modulo `2^32`. -/
def Align (alignment_value align : Nat) : Nat :=
  let align := (align + 4294967295) % 4294967296
  if alignment_value &&& align ≠ 0 then
    ((alignment_value ||| align) + 1) % 4294967296
  else
    alignment_value

/-! ## Byte buffers -/

/-- The four bytes at `off`, read as a little-endian 32-bit word (`memcpy` into
a `std::uint32_t`). -/
def read32 (buf : List Nat) (off : Nat) : Nat :=
  buf.getD off 0 % 256 + 256 * (buf.getD (off + 1) 0 % 256)
    + 65536 * (buf.getD (off + 2) 0 % 256) + 16777216 * (buf.getD (off + 3) 0 % 256)

/-- The bytes `src` copied over the buffer from `off` on. -/
def writeBytes (buf : List Nat) (off : Nat) (src : List Nat) : List Nat :=
  buf.take off ++ src ++ buf.drop (off + src.length)

/-- The four bytes of a little-endian 32-bit word. -/
def bytes32 (w : Nat) : List Nat :=
  [w % 256, w / 256 % 256, w / 65536 % 256, w / 16777216 % 256]

/-- A 32-bit word stored at `off` (`memcpy` from a `std::uint32_t`). -/
def write32 (buf : List Nat) (off : Nat) (w : Nat) : List Nat :=
  writeBytes buf off (bytes32 w)

/-! ## `ApplyMipsReloc` -/

/-- The `switch(type)` of `ApplyMipsReloc`: the new word, or `none` in the
`default` case. `u_current_data` and `s_current_data` are the unsigned and the
signed reading of the word at the target. -/
def newstate (type : Nat) (u_current_data : Nat) (s_current_data : Int) (addr : Nat) : Option Nat :=
  if type = R_MIPS_32 then
    some (toU32 (s_current_data + (addr : Int)))
  else if type = R_MIPS_26 then
    some ((u_current_data &&& 0xfc000000)
      ||| (((u_current_data &&& 0x03ffffff) + (addr >>> 2)) % 4294967296 &&& 0x3ffffff))
  else if type = R_MIPS_HI16 then
    some ((u_current_data &&& 0xffff0000)
      ||| (toU32 (sar16 (shl16 s_current_data) + ((addr >>> 16 : Nat) : Int)
            + (if (addr &&& 0xffff) ≥ 0x8000 then 1 else 0)) &&& 0xffff))
  else if type = R_MIPS_LO16 then
    some ((u_current_data &&& 0xffff0000)
      ||| (toU32 (sar16 (shl16 s_current_data) + ((addr &&& 0xffff : Nat) : Int)) &&& 0xffff))
  else
    none

/-- `ApplyMipsReloc(&bytes[reloc], type, addr)` on the buffer `bytes`: the
returned `int` and the buffer afterwards; `none` when the four bytes at
`reloc` are not all inside the buffer. -/
def ApplyMipsReloc (bytes : List Nat) (reloc : Nat) (type : Nat) (addr : Nat) : Option (Int × List Nat) :=
  if reloc + 4 ≤ bytes.length then
    let u_current_data := read32 bytes reloc
    let s_current_data := toS32 (read32 bytes reloc)
    match newstate type u_current_data s_current_data addr with
    | none => some (-1, bytes)
    | some w => some (0, write32 bytes reloc w)
  else
    none

/-! ## Records of the container -/

/-- A section-header record (`elf_section_t`): `sh_name` is the offset of the
section's name in the section-name table, and `name` the C string at
`&shstrtab[sh_name]`. -/
structure elf_section_t where
  name : String
  sh_name : Nat
  sh_type : Nat
  sh_addr : Nat
  sh_offset : Nat
  sh_size : Nat
  sh_link : Nat
  sh_info : Nat
  sh_addralign : Nat
  sh_entsize : Nat
  deriving DecidableEq, Repr

/-- A symbol record (`elf_symbol_t`), with `name` the C string at
`&strtab_names[st_name]`. -/
structure elf_symbol_t where
  name : String
  st_value : Nat
  st_size : Nat
  st_info : Nat
  st_other : Nat
  st_shndx : Nat
  deriving DecidableEq, Repr

/-- A relocation-with-addend record (`elf_reloca_t`). -/
structure elf_reloca_t where
  r_offset : Nat
  r_info : Nat
  r_addend : Int
  deriving DecidableEq, Repr

/-- An opened file, through what the reads of `Load` deliver.
`ei_magic`, `e_type`, `e_shentsize`, `e_shstrndx`: fields of the header (a byte
the file does not hold stays at the zero of `elf_header_t header {}`);
`sections`: the `e_shnum` records read at `e_shoff`;
`symbols i`, `relocs i`: the records held by section `i`, as many as
`sh_size / sh_entsize`;
`data`: the raw bytes of the file, from which `PROGBITS` contents are read. -/
structure ErlFile where
  ei_magic : List Nat
  e_type : Nat
  e_shentsize : Nat
  e_shstrndx : Nat
  sections : List elf_section_t
  symbols : Nat → List elf_symbol_t
  relocs : Nat → List elf_reloca_t
  data : List Nat

/-- `file.Seek(off, FIO_SEEK_SET); file.Read(dst, n)`: the bytes delivered, fewer
than `n` at the end of the file. -/
def ErlFile.Read (f : ErlFile) (off n : Nat) : List Nat :=
  (f.data.drop off).take n

/-- What the loader is given by its surroundings.
`alloc n`: the address `new T[...]` returns for a block of `n` bytes, `none`
when it returns null;
`garbage i`: the indeterminate byte a fresh `new std::uint8_t[fullsize]` holds
at index `i`;
`call a`: the `int` the code at address `a` returns when called. -/
structure Host where
  alloc : Nat → Option Nat
  garbage : Nat → Nat
  call : Nat → Int

/-! ## `HashTable<String, Symbol>` -/

/-- Modelled from the spec: `HashTable.h` is not among the sources. The
exported symbol map: insertion and exact-name lookup, "duplicate names are not
deduplicated — last write wins". The entries are kept newest first. -/
structure HashTable where
  entries : List (String × Nat)
  deriving DecidableEq, Repr

/-- Modelled from the spec: `HashTable.h` is not among the sources.
`Init(n)` leaves a table without entries. -/
def HashTable.Init (_buckets : Nat) : HashTable := ⟨[]⟩

/-- Modelled from the spec: `HashTable.h` is not among the sources.
`Set(key, value)`: insertion, the last write wins. -/
def HashTable.Set (t : HashTable) (key : String) (value : Nat) : HashTable :=
  ⟨(key, value) :: t.entries⟩

/-- Modelled from the spec: `HashTable.h` is not among the sources.
`MaybeGet(key)`: exact-name lookup, `none` for the null pointer. -/
def HashTable.MaybeGet (t : HashTable) (key : String) : Option Nat :=
  t.entries.lookup key

/-! ## `ImageImpl` -/

/-- The data members of `ImageImpl`; `none` is the null pointer. -/
structure ImageImpl where
  symbol_table : HashTable
  bytes : Option (List Nat)
  fullsize : Nat
  symtab : Option (List elf_symbol_t)
  deriving DecidableEq, Repr

/-- A freshly constructed `ImageImpl` (`new ImageImpl()`). -/
def ImageImpl.fresh : ImageImpl := ⟨⟨[]⟩, none, 0, none⟩

/-- `ImageImpl::ResolveSymbol(symbolName)`; `-1` as a 32-bit `Symbol`. -/
def ImageImpl.ResolveSymbol (self : ImageImpl) (symbolName : String) : Nat :=
  match self.symbol_table.MaybeGet symbolName with
  | some sym => sym
  | none => 4294967295

/-! ## The stages of `ImageImpl::Load` -/

/-- The locals the section loop of `Load` (lines 176-194) updates. -/
structure LayoutState where
  fullsize : Nat
  strtab_index : Nat
  symtab_index : Nat
  linked_strtab_index : Nat
  deriving DecidableEq, Repr

/-- One round of the section loop, for section `i`: the locals and the section
record afterwards. -/
def layoutStep (st : LayoutState) (i : Nat) (sec : elf_section_t) : LayoutState × elf_section_t :=
  let st1 : LayoutState :=
    if sec.name = ".symtab" then
      { st with symtab_index := i, linked_strtab_index := sec.sh_link }
    else if sec.name = ".strtab" then
      { st with strtab_index := i }
    else st
  if sec.sh_type = PROGBITS ∨ sec.sh_type = NOBITS then
    let fullsize := Align st1.fullsize sec.sh_addralign
    ({ st1 with fullsize := (fullsize + sec.sh_size) % 4294967296 }, { sec with sh_addr := fullsize })
  else
    (st1, sec)

/-- The section loop from index `i` on, over the sections `i, i+1, ...`. -/
def layoutLoop (st : LayoutState) (i : Nat) : List elf_section_t → LayoutState × List elf_section_t
  | [] => (st, [])
  | sec :: rest =>
    let r := layoutStep st i sec
    let rs := layoutLoop r.1 (i + 1) rest
    (rs.1, r.2 :: rs.2)

/-- The section loop of `Load`, `for(int i = 1; i < header.e_shnum; ++i)`:
section 0 is not visited. -/
def layout (sections : List elf_section_t) : LayoutState × List elf_section_t :=
  match sections with
  | [] => (⟨0, 0, 0, 0⟩, [])
  | s0 :: rest =>
    let rs := layoutLoop ⟨0, 0, 0, 0⟩ 1 rest
    (rs.1, s0 :: rs.2)

/-- One round of the loop that loads sections (lines 224-246). -/
def loadSection (f : ErlFile) (bytes : List Nat) (sec : elf_section_t) : List Nat × Option Stop :=
  if sec.sh_type = PROGBITS then
    let src := f.Read sec.sh_offset sec.sh_size
    if sec.sh_addr + src.length ≤ bytes.length then
      (writeBytes bytes sec.sh_addr src, none)
    else (bytes, some Stop.outOfRange)
  else if sec.sh_type = NOBITS then
    if sec.sh_addr + sec.sh_size ≤ bytes.length then
      (writeBytes bytes sec.sh_addr (List.replicate sec.sh_size 0), none)
    else (bytes, some Stop.outOfRange)
  else
    (bytes, none)

/-- The loop that loads sections, over the sections from index 1 on. -/
def loadSections (f : ErlFile) (bytes : List Nat) : List elf_section_t → List Nat × Option Stop
  | [] => (bytes, none)
  | sec :: rest =>
    match loadSection f bytes sec with
    | (b, none) => loadSections f b rest
    | (b, some e) => (b, some e)

/-- The body of the loop over the relocation entries (lines 288-328), for the
entry `r` of a relocation section whose `sh_info` is `info`; `base` is the
address of `bytes`. -/
def relocEntry (base : Nat) (sections : List elf_section_t) (symtab : List elf_symbol_t)
    (info : Nat) (bytes : List Nat) (r : elf_reloca_t) : List Nat × Option Stop :=
  let symbol_number := r.r_info >>> 8
  match symtab[symbol_number]? with
  | none => (bytes, some Stop.outOfRange)
  | some sym =>
    if sym.st_info &&& 15 = NOTYPE then
      (bytes, none)
    else if sym.st_info &&& 15 = SECTION then
      match sections[info]?, sections[sym.st_shndx]? with
      | some relocating_section, some symsec =>
        let offset := (relocating_section.sh_addr + r.r_offset) % 4294967296
        let addr := (base + symsec.sh_addr) % 4294967296
        match ApplyMipsReloc bytes offset (r.r_info &&& 255) addr with
        | none => (bytes, some Stop.outOfRange)
        | some (rc, b) =>
          if rc < 0 then (b, some (Stop.error ErlLoadError.RelocationError)) else (b, none)
      | _, _ => (bytes, some Stop.outOfRange)
    else if sym.st_info &&& 15 = OBJECT ∨ sym.st_info &&& 15 = FUNC then
      match sections[info]? with
      | some relocating_section =>
        let offset := (relocating_section.sh_addr + sym.st_value) % 4294967296
        let addr := (base + offset) % 4294967296
        match ApplyMipsReloc bytes offset (r.r_info &&& 255) addr with
        | none => (bytes, some Stop.outOfRange)
        | some (rc, b) =>
          if rc < 0 then (b, some (Stop.error ErlLoadError.RelocationError)) else (b, none)
      | none => (bytes, some Stop.outOfRange)
    else
      (bytes, none)

/-- The loop over the entries of one relocation section. -/
def relocEntries (base : Nat) (sections : List elf_section_t) (symtab : List elf_symbol_t)
    (info : Nat) (bytes : List Nat) : List elf_reloca_t → List Nat × Option Stop
  | [] => (bytes, none)
  | r :: rest =>
    match relocEntry base sections symtab info bytes r with
    | (b, none) => relocEntries base sections symtab info b rest
    | (b, some e) => (b, some e)

/-- One round of the loop over the sections that applies relocations
(lines 264-332), for section `i`. -/
def relocSection (host : Host) (f : ErlFile) (base : Nat) (sections : List elf_section_t)
    (symtab : List elf_symbol_t) (bytes : List Nat) (i : Nat) (sec : elf_section_t) :
    List Nat × Option Stop :=
  if sec.sh_type ≠ RELA then
    (bytes, none)
  else if sec.sh_entsize ≠ sizeof_elf_reloca_t then
    (bytes, some (Stop.error ErlLoadError.SizeMismatch))
  else
    match host.alloc ((f.relocs i).length * sizeof_elf_reloca_t) with
    | none => (bytes, some (Stop.error ErlLoadError.OomHit))
    | some _ => relocEntries base sections symtab sec.sh_info bytes (f.relocs i)

/-- The loop over the sections that applies relocations, from section `i` on. -/
def relocSections (host : Host) (f : ErlFile) (base : Nat) (sections : List elf_section_t)
    (symtab : List elf_symbol_t) (bytes : List Nat) (i : Nat) :
    List elf_section_t → List Nat × Option Stop
  | [] => (bytes, none)
  | sec :: rest =>
    match relocSection host f base sections symtab bytes i sec with
    | (b, none) => relocSections host f base sections symtab b (i + 1) rest
    | (b, some e) => (b, some e)

/-- The test of the export loop: binding GLOBAL or WEAK, type other than NOTYPE. -/
def exported (sym : elf_symbol_t) : Bool :=
  (sym.st_info >>> 4 = GLOBAL ∨ sym.st_info >>> 4 = WEAK) ∧ sym.st_info &&& 15 ≠ NOTYPE

/-- One round of the export loop (lines 336-348). -/
def exportSymbol (base : Nat) (sections : List elf_section_t) (table : HashTable)
    (sym : elf_symbol_t) : HashTable × Option Stop :=
  if exported sym then
    match sections[sym.st_shndx]? with
    | none => (table, some Stop.outOfRange)
    | some sec =>
      let offset := (sec.sh_addr + sym.st_value) % 4294967296
      let addr := (base + offset) % 4294967296
      (table.Set sym.name addr, none)
  else
    (table, none)

/-- The export loop over the symbol table. -/
def exportSymbols (base : Nat) (sections : List elf_section_t) (table : HashTable) :
    List elf_symbol_t → HashTable × Option Stop
  | [] => (table, none)
  | sym :: rest =>
    match exportSymbol base sections table sym with
    | (t, none) => exportSymbols base sections t rest
    | (t, some e) => (t, some e)

/-- The reads `&shstrtab[section.sh_name]` that the loops of `Load` make for
the sections `secs` stay inside a section-name table of `shstrtab_length`
bytes. The loop of line 176 and the loop of line 224 read the names of the
sections from index 1 on; the loop of line 264 starts at section 0. -/
def namesInside (shstrtab_length : Nat) (secs : List elf_section_t) : Bool :=
  secs.all (fun s => decide (s.sh_name < shstrtab_length))

/-! ## `ImageImpl::Load` -/

/-- What a call of `Load` leaves behind: the members of the object, the address
control was transferred to (`start()`), if any, and the returned
`ErlResult<void>` (`none` is `NO_ERROR`). -/
structure LoadRun where
  self : ImageImpl
  entry : Option Nat
  ret : Option Stop

/-- `ImageImpl::Load(path)`; `file` is what `file.Open(path, FIO_O_RDONLY)`
found, `none` when the file cannot be opened. The section-name table is read
from `sections[header.e_shstrndx]` (lines 169-174); the name reads of the
layout loop (line 178), which has no exit of its own, are tested before the
loop, and the name read of section 0 where the relocation loop starts. -/
def ImageImpl.Load (host : Host) (self : ImageImpl) (file : Option ErlFile) : LoadRun :=
  match file with
  | none => ⟨self, none, some (Stop.error ErlLoadError.FileNotFound)⟩
  | some f =>
    if f.ei_magic.getD 0 0 ≠ 0o77 ∧ f.ei_magic.getD 1 0 ≠ 69 ∧ f.ei_magic.getD 2 0 ≠ 76
        ∧ f.ei_magic.getD 3 0 ≠ 70 then
      ⟨self, none, some (Stop.error ErlLoadError.NotElf)⟩
    else if f.e_type ≠ REL_TYPE then
      ⟨self, none, some (Stop.error ErlLoadError.NotRelocatable)⟩
    else if sizeof_elf_section_t ≠ f.e_shentsize then
      ⟨self, none, some (Stop.error ErlLoadError.SizeMismatch)⟩
    else
      match host.alloc (f.sections.length * sizeof_elf_section_t) with
      | none => ⟨self, none, some (Stop.error ErlLoadError.OomHit)⟩
      | some _ =>
        match f.sections[f.e_shstrndx]? with
        | none => ⟨self, none, some Stop.outOfRange⟩
        | some shstrsec =>
          let shstrtab_length := shstrsec.sh_size
          if ¬ namesInside shstrtab_length f.sections.tail then
            ⟨self, none, some Stop.outOfRange⟩
          else
            let lay := layout f.sections
            let sections := lay.2
            if lay.1.symtab_index = 0 then
              ⟨self, none, some (Stop.error ErlLoadError.NotRelocatable)⟩
            else if lay.1.strtab_index = 0 then
              ⟨self, none, some (Stop.error ErlLoadError.NotRelocatable)⟩
            else if lay.1.strtab_index ≠ lay.1.linked_strtab_index then
              ⟨self, none, some (Stop.error ErlLoadError.NotRelocatable)⟩
            else if sizeof_elf_symbol_t ≠ (sections.getD lay.1.symtab_index ⟨"", 0, 0, 0, 0, 0, 0, 0, 0, 0⟩).sh_entsize then
              ⟨self, none, some (Stop.error ErlLoadError.SizeMismatch)⟩
            else
              let self1 : ImageImpl := { self with fullsize := lay.1.fullsize }
              match host.alloc lay.1.fullsize with
              | none => ⟨{ self1 with bytes := none }, none, some (Stop.error ErlLoadError.OomHit)⟩
              | some base =>
                let self2 : ImageImpl := { self1 with symbol_table := HashTable.Init 64 }
                let fresh := (List.range lay.1.fullsize).map (fun i => host.garbage i % 256)
                match loadSections f fresh sections.tail with
                | (b, some e) => ⟨{ self2 with bytes := some b }, none, some e⟩
                | (b1, none) =>
                  let symtab := f.symbols lay.1.symtab_index
                  match host.alloc (symtab.length * sizeof_elf_symbol_t) with
                  | none => ⟨{ self2 with bytes := some b1, symtab := none }, none,
                              some (Stop.error ErlLoadError.OomHit)⟩
                  | some _ =>
                    let self3 : ImageImpl := { self2 with symtab := some symtab }
                    if ¬ namesInside shstrtab_length (f.sections.take 1) then
                      ⟨{ self3 with bytes := some b1 }, none, some Stop.outOfRange⟩
                    else
                      match relocSections host f base sections symtab b1 0 sections with
                      | (b, some e) => ⟨{ self3 with bytes := some b }, none, some e⟩
                      | (b2, none) =>
                        match exportSymbols base sections self3.symbol_table symtab with
                        | (t, some e) => ⟨{ self3 with bytes := some b2, symbol_table := t }, none, some e⟩
                        | (t, none) =>
                          let self4 : ImageImpl := { self3 with bytes := some b2, symbol_table := t }
                          let start := self4.ResolveSymbol "_start"
                          let _res := host.call start
                          ⟨self4, some start, none⟩

/-! ## Notions used in the statements -/

/-- The low 16 bits of a word, read as a signed 16-bit quantity. -/
def signExtend16 (x : Nat) : Int :=
  if x % 65536 < 32768 then ((x % 65536 : Nat) : Int) else ((x % 65536 : Nat) : Int) - 65536


/-- The test of the layout loop: the section takes room in the image. -/
def allocatable (sec : elf_section_t) : Bool :=
  sec.sh_type = PROGBITS ∨ sec.sh_type = NOBITS

/-- The in-image ranges `(sh_addr, sh_size)` of the PROGBITS/NOBITS sections the
layout loop visits (index 1 on), in file order. -/
def ranges (sections : List elf_section_t) : List (Nat × Nat) :=
  (sections.tail.filter allocatable).map (fun s => (s.sh_addr, s.sh_size))

/-- The padding before each range: its start minus the end of the range before
it (`start` for the first). -/
def gaps (start : Nat) : List (Nat × Nat) → List Nat
  | [] => []
  | a :: rest => (a.1 - start) :: gaps (a.1 + a.2) rest

/-- The room the PROGBITS/NOBITS sections can take at most: for each, its size
plus its alignment. -/
def roomBound (sections : List elf_section_t) : Nat :=
  ((sections.filter allocatable).map (fun s => s.sh_size + s.sh_addralign)).sum

/-- The checks of `Load` that come before the image buffer is allocated
(lines 139-208): format magic, container type, section-header record size, a
`.symtab` and a `.strtab` section found and linked, symbol record size. -/
def passesValidation (f : ErlFile) : Prop :=
  ¬ (f.ei_magic.getD 0 0 ≠ 0o77 ∧ f.ei_magic.getD 1 0 ≠ 69 ∧ f.ei_magic.getD 2 0 ≠ 76
      ∧ f.ei_magic.getD 3 0 ≠ 70) ∧
  f.e_type = REL_TYPE ∧ sizeof_elf_section_t = f.e_shentsize ∧
  (layout f.sections).1.symtab_index ≠ 0 ∧ (layout f.sections).1.strtab_index ≠ 0 ∧
  (layout f.sections).1.strtab_index = (layout f.sections).1.linked_strtab_index ∧
  sizeof_elf_symbol_t
    = ((layout f.sections).2.getD (layout f.sections).1.symtab_index ⟨"", 0, 0, 0, 0, 0, 0, 0, 0, 0⟩).sh_entsize

instance (f : ErlFile) : Decidable (passesValidation f) := by
  unfold passesValidation; infer_instance

/-- The reads of the section-name table stay inside it for the sections
`secs`: `e_shstrndx` names a section of the table, and the `sh_name` of each
section of `secs` lies below the size of that section. -/
def namesInRange (f : ErlFile) (secs : List elf_section_t) : Bool :=
  match f.sections[f.e_shstrndx]? with
  | none => false
  | some shstrsec => namesInside shstrsec.sh_size secs

/-- The symbol table `Load` reads: the records of the section found as `.symtab`. -/
def symtabOf (f : ErlFile) : List elf_symbol_t :=
  f.symbols (layout f.sections).1.symtab_index

/-- The buffer `new std::uint8_t[fullsize]` as `Load` finds it. -/
def freshBytes (host : Host) (f : ErlFile) : List Nat :=
  (List.range (layout f.sections).1.fullsize).map (fun i => host.garbage i % 256)

/-- Modelled from the spec: `elf.h` is not among the sources. Symbol binding
LOCAL, with its ELF value. -/
def LOCAL : Nat := 0

/-- The symbol lies inside the image: its section exists and its offset
`sh_addr + st_value` is below `fullsize`. -/
def insideImage (sections : List elf_section_t) (fullsize : Nat) (sym : elf_symbol_t) : Bool :=
  match sections[sym.st_shndx]? with
  | some sec => decide (sec.sh_addr + sym.st_value < fullsize)
  | none => false

/-! ## Sample containers -/

/-- The all-zero section record at index 0 of a section table. -/
def nullSection : elf_section_t := ⟨"", 0, 0, 0, 0, 0, 0, 0, 0, 0⟩

/-- A host whose allocator always succeeds, with the block at address
`0x100000`; a fresh block is filled with `0xAA`. -/
def sampleHost : Host := ⟨fun _ => some 0x100000, fun _ => 0xAA, fun _ => 0⟩

/-- A loadable container: `.text` (8 bytes), `.data` (4 bytes), one relocation
section for `.text`, `.symtab`, `.strtab` and the section-name table
`.shstrtab` (50 bytes). The symbols are the null symbol,
the section symbol of `.data`, the GLOBAL FUNC `_start` and the LOCAL FUNC
`local_fn`; the one relocation entry is `R_MIPS_32` against the section symbol. -/
def sampleFile : ErlFile where
  ei_magic := [0x7f, 69, 76, 70]
  e_type := 1
  e_shentsize := 40
  e_shstrndx := 6
  sections := [nullSection,
    ⟨".text", 1, 1, 0, 0, 8, 0, 0, 16, 0⟩,
    ⟨".data", 7, 1, 0, 8, 4, 0, 0, 4, 0⟩,
    ⟨".rela.text", 13, 4, 0, 12, 12, 4, 1, 4, 12⟩,
    ⟨".symtab", 24, 2, 0, 24, 64, 5, 0, 4, 16⟩,
    ⟨".strtab", 32, 3, 0, 88, 16, 0, 0, 1, 0⟩,
    ⟨".shstrtab", 40, 3, 0, 104, 50, 0, 0, 1, 0⟩]
  symbols := fun i =>
    if i = 4 then
      [⟨"", 0, 0, 0, 0, 0⟩, ⟨"", 0, 0, 3, 0, 2⟩, ⟨"_start", 0, 4, 0x12, 0, 1⟩,
        ⟨"local_fn", 4, 4, 0x02, 0, 1⟩]
    else []
  relocs := fun i => if i = 3 then [⟨4, 0x102, 0⟩] else []
  data := [1, 2, 3, 4, 5, 0, 0, 0, 9, 10, 11, 12]

/-- The sample container with `G` in place of `F` as the fourth header byte. -/
def badMagicFile : ErlFile := { sampleFile with ei_magic := [0x7f, 69, 76, 71] }

/-- The sample container with `main` in place of `_start`: no symbol is named
`_start`. -/
def noStartFile : ErlFile :=
  { sampleFile with
    symbols := fun i =>
      if i = 4 then [⟨"", 0, 0, 0, 0, 0⟩, ⟨"", 0, 0, 3, 0, 2⟩, ⟨"main", 0, 4, 0x12, 0, 1⟩] else [] }

/-- The sample container with one relocation entry of kind 99 that references
the section symbol of `.data`. -/
def badKindFile : ErlFile :=
  { sampleFile with relocs := fun i => if i = 3 then [⟨4, 0x163, 0⟩] else [] }

/-- A container with `.text` of four words and `.data` of two words; the
GLOBAL OBJECT `var` lies at offset 4 of `.data`, and the one relocation entry,
`R_MIPS_32` at offset 8 of `.text`, references it. -/
def objRelocFile : ErlFile where
  ei_magic := [0x7f, 69, 76, 70]
  e_type := 1
  e_shentsize := 40
  e_shstrndx := 6
  sections := [nullSection,
    ⟨".text", 1, 1, 0, 0, 16, 0, 0, 4, 0⟩,
    ⟨".data", 7, 1, 0, 16, 8, 0, 0, 4, 0⟩,
    ⟨".rela.text", 13, 4, 0, 24, 12, 4, 1, 4, 12⟩,
    ⟨".symtab", 24, 2, 0, 36, 48, 5, 0, 4, 16⟩,
    ⟨".strtab", 32, 3, 0, 84, 16, 0, 0, 1, 0⟩,
    ⟨".shstrtab", 40, 3, 0, 100, 50, 0, 0, 1, 0⟩]
  symbols := fun i =>
    if i = 4 then
      [⟨"", 0, 0, 0, 0, 0⟩, ⟨"var", 4, 4, 0x11, 0, 2⟩, ⟨"_start", 0, 16, 0x12, 0, 1⟩]
    else []
  relocs := fun i => if i = 3 then [⟨8, 0x102, 0⟩] else []
  data := [1, 0, 0, 0, 2, 0, 0, 0, 3, 0, 0, 0, 4, 0, 0, 0, 5, 0, 0, 0, 6, 0, 0, 0]

/-- The sample container with one more symbol, the GLOBAL OBJECT `edge` of
value `0xFFEFFFFF` in `.text`. -/
def collideFile : ErlFile :=
  { sampleFile with
    symbols := fun i =>
      if i = 4 then
        [⟨"", 0, 0, 0, 0, 0⟩, ⟨"", 0, 0, 3, 0, 2⟩, ⟨"_start", 0, 4, 0x12, 0, 1⟩,
          ⟨"edge", 0xFFEFFFFF, 0, 0x11, 0, 1⟩]
      else [] }

/-- A section table whose second PROGBITS section has alignment 0. -/
def overlapSections : List elf_section_t :=
  [nullSection, ⟨".text", 1, 1, 0, 0, 8, 0, 0, 4, 0⟩, ⟨".data", 7, 1, 0, 8, 4, 0, 0, 0, 0⟩]

/-- A section table whose two NOBITS sections take more than `2^32` bytes. -/
def wrapSections : List elf_section_t :=
  [nullSection, ⟨".bss", 1, 8, 0, 0, 0xFFFFFFF0, 0, 0, 16, 0⟩, ⟨".sbss", 6, 8, 0, 0, 0x20, 0, 0, 16, 0⟩]

/-! ## `ScopeExitGuard` and `LoadErl` -/

/-- The data member `should_call` of `ScopeExitGuard`; the attached functor of
the guard in `LoadErl` is `delete image`. -/
structure ScopeExitGuard where
  should_call : Bool
  deriving DecidableEq, Repr

/-- The constructor of `ScopeExitGuard`: `should_call { true }`. -/
def ScopeExitGuard.new : ScopeExitGuard := ⟨true⟩

/-- `ScopeExitGuard::DontCall()`. -/
def ScopeExitGuard.DontCall (g : ScopeExitGuard) : ScopeExitGuard :=
  { g with should_call := false }

/-- The destructor of `ScopeExitGuard`, run once when the scope is left: how
often the functor has been called afterwards, given how often before. -/
def ScopeExitGuard.exit (g : ScopeExitGuard) (called : Nat) : Nat :=
  if g.should_call then called + 1 else called

/-- What a call of `LoadErl` hands back: the returned `Image*` (`none` is
`nullptr`) and how often `delete image` has run. -/
structure ErlRun where
  image : Option ImageImpl
  deleted : Nat
  deriving DecidableEq, Repr

/-- `LoadErl(path)`; `file` is what opening `path` finds. `new ImageImpl()` is
taken to succeed (the source does not test it). The result is `none` when
`Load` runs outside an array, where the source has no defined behaviour. -/
def LoadErl (host : Host) (file : Option ErlFile) : Option ErlRun :=
  let image := ImageImpl.fresh
  let guard := ScopeExitGuard.new
  let res := image.Load host file
  match res.ret with
  | some Stop.outOfRange => none
  | some (Stop.error _) => some ⟨none, guard.exit 0⟩
  | none =>
    let guard := guard.DontCall
    some ⟨some res.self, guard.exit 0⟩

/-- The sample host, except that the code of a module returns 7 when called. -/
def sampleHost7 : Host := { sampleHost with call := fun _ => 7 }

/-- The sample container with a section-header record size of 44 in its header. -/
def shentsizeFile : ErlFile := { sampleFile with e_shentsize := 44 }

/-- A host whose allocator always returns null. -/
def oomHost : Host := ⟨fun _ => none, fun _ => 0xAA, fun _ => 0⟩

/-- The sample container with its symbol-table section named `.dynsym`: no
section is named `.symtab`. -/
def noSymtabFile : ErlFile :=
  { sampleFile with
    sections := [nullSection,
      ⟨".text", 1, 1, 0, 0, 8, 0, 0, 16, 0⟩,
      ⟨".data", 7, 1, 0, 8, 4, 0, 0, 4, 0⟩,
      ⟨".rela.text", 13, 4, 0, 12, 12, 4, 1, 4, 12⟩,
      ⟨".dynsym", 24, 2, 0, 24, 64, 5, 0, 4, 16⟩,
      ⟨".strtab", 32, 3, 0, 88, 16, 0, 0, 1, 0⟩,
      ⟨".shstrtab", 40, 3, 0, 104, 50, 0, 0, 1, 0⟩] }

/-- The sample container with the `sh_link` of `.symtab` naming section 2, not
the `.strtab` section at index 5. -/
def mislinkedFile : ErlFile :=
  { sampleFile with
    sections := [nullSection,
      ⟨".text", 1, 1, 0, 0, 8, 0, 0, 16, 0⟩,
      ⟨".data", 7, 1, 0, 8, 4, 0, 0, 4, 0⟩,
      ⟨".rela.text", 13, 4, 0, 12, 12, 4, 1, 4, 12⟩,
      ⟨".symtab", 24, 2, 0, 24, 64, 2, 0, 4, 16⟩,
      ⟨".strtab", 32, 3, 0, 88, 16, 0, 0, 1, 0⟩,
      ⟨".shstrtab", 40, 3, 0, 104, 50, 0, 0, 1, 0⟩] }

/-- The sample container with two sections named `.strtab`, at indices 2 and 5,
and the `sh_link` of `.symtab` naming the first of them. -/
def twoStrtabFile : ErlFile :=
  { sampleFile with
    sections := [nullSection,
      ⟨".text", 1, 1, 0, 0, 8, 0, 0, 16, 0⟩,
      ⟨".strtab", 32, 3, 0, 8, 4, 0, 0, 1, 0⟩,
      ⟨".rela.text", 13, 4, 0, 12, 12, 4, 1, 4, 12⟩,
      ⟨".symtab", 24, 2, 0, 24, 64, 2, 0, 4, 16⟩,
      ⟨".strtab", 32, 3, 0, 88, 16, 0, 0, 1, 0⟩,
      ⟨".shstrtab", 40, 3, 0, 104, 50, 0, 0, 1, 0⟩] }

/-- A container with a valid header and no section at all (`e_shnum` is 0). -/
def emptyTableFile : ErlFile := { sampleFile with e_shstrndx := 0, sections := [] }

/-- The sample container with its relocation entry naming symbol 9, of 4. -/
def symbolNumberFile : ErlFile :=
  { sampleFile with relocs := fun i => if i = 3 then [⟨4, 0x902, 0⟩] else [] }

/-- The sample container with the `sh_info` of its relocation section naming
section 77, of 7. -/
def shInfoFile : ErlFile :=
  { sampleFile with
    sections := [nullSection,
      ⟨".text", 1, 1, 0, 0, 8, 0, 0, 16, 0⟩,
      ⟨".data", 7, 1, 0, 8, 4, 0, 0, 4, 0⟩,
      ⟨".rela.text", 13, 4, 0, 12, 12, 4, 77, 4, 12⟩,
      ⟨".symtab", 24, 2, 0, 24, 64, 5, 0, 4, 16⟩,
      ⟨".strtab", 32, 3, 0, 88, 16, 0, 0, 1, 0⟩,
      ⟨".shstrtab", 40, 3, 0, 104, 50, 0, 0, 1, 0⟩] }

/-- The sample container with one more symbol, the GLOBAL OBJECT `abs_sym`
whose `st_shndx` is `0xFFF1` (the reserved index of absolute symbols). -/
def shndxFile : ErlFile :=
  { sampleFile with
    symbols := fun i =>
      if i = 4 then
        [⟨"", 0, 0, 0, 0, 0⟩, ⟨"", 0, 0, 3, 0, 2⟩, ⟨"_start", 0, 4, 0x12, 0, 1⟩,
          ⟨"abs_sym", 16, 0, 0x11, 0, 0xfff1⟩]
      else [] }

/-- The sample container with its relocation entry at offset `0x1000` of
`.text`, in an image of 12 bytes. -/
def targetOffsetFile : ErlFile :=
  { sampleFile with relocs := fun i => if i = 3 then [⟨0x1000, 0x102, 0⟩] else [] }

/-- The image the section loader builds from position `p` on, over the
sections in file order, in a buffer that held `fresh`: before each PROGBITS
section the bytes of `fresh` up to the section's `sh_addr` (the alignment
gap), then the bytes the file delivers for the section; after the last
section what is left of `fresh`. -/
def imageFrom (f : ErlFile) (fresh : List Nat) : Nat → List elf_section_t → List Nat
  | p, [] => fresh.drop p
  | p, s :: rest =>
    if s.sh_type = PROGBITS then
      (fresh.drop p).take (s.sh_addr - p) ++ f.Read s.sh_offset s.sh_size
        ++ imageFrom f fresh (s.sh_addr + (f.Read s.sh_offset s.sh_size).length) rest
    else imageFrom f fresh p rest

/-- A container without relocations: `.text` of 6 bytes and `.data` of 4
bytes, both aligned to 4, so that two bytes of padding lie between them. -/
def gapFile : ErlFile where
  ei_magic := [0x7f, 69, 76, 70]
  e_type := 1
  e_shentsize := 40
  e_shstrndx := 5
  sections := [nullSection,
    ⟨".text", 1, 1, 0, 0, 6, 0, 0, 4, 0⟩,
    ⟨".data", 7, 1, 0, 6, 4, 0, 0, 4, 0⟩,
    ⟨".symtab", 24, 2, 0, 10, 32, 4, 0, 4, 16⟩,
    ⟨".strtab", 32, 3, 0, 42, 8, 0, 0, 1, 0⟩,
    ⟨".shstrtab", 40, 3, 0, 50, 50, 0, 0, 1, 0⟩]
  symbols := fun i =>
    if i = 3 then [⟨"", 0, 0, 0, 0, 0⟩, ⟨"_start", 0, 4, 0x12, 0, 1⟩] else []
  relocs := fun _ => []
  data := [1, 2, 3, 4, 5, 6, 9, 10, 11, 12]

/-- A container without relocations: `.text` of 4 bytes aligned to 4 and
`.data` of 8 bytes with alignment 0. -/
def alignZeroFile : ErlFile where
  ei_magic := [0x7f, 69, 76, 70]
  e_type := 1
  e_shentsize := 40
  e_shstrndx := 5
  sections := [nullSection,
    ⟨".text", 1, 1, 0, 0, 4, 0, 0, 4, 0⟩,
    ⟨".data", 7, 1, 0, 4, 8, 0, 0, 0, 0⟩,
    ⟨".symtab", 24, 2, 0, 12, 32, 4, 0, 4, 16⟩,
    ⟨".strtab", 32, 3, 0, 44, 8, 0, 0, 1, 0⟩,
    ⟨".shstrtab", 40, 3, 0, 52, 50, 0, 0, 1, 0⟩]
  symbols := fun i =>
    if i = 3 then [⟨"", 0, 0, 0, 0, 0⟩, ⟨"_start", 0, 4, 0x12, 0, 1⟩] else []
  relocs := fun _ => []
  data := [1, 2, 3, 4, 21, 22, 23, 24, 25, 26, 27, 28]

/-! # Theorems -/

/-! ## Machine words and byte buffers -/

theorem shl_sar_16 (w : Nat) :
    sar16 (shl16 (toS32 w)) = signExtend16 w := by
  unfold sar16 shl16 toS32 toU32 signExtend16
  split_ifs <;> omega

theorem and_ffff (x : Nat) : x &&& 0xffff = x % 65536 :=
  Nat.and_pow_two_sub_one_eq_mod x 16

theorem and_ffff0000 (x : Nat) : x &&& 0xffff0000 = 65536 * (x / 65536 % 65536) := by
  have h : (0xffff0000 : Nat) = (2 ^ 16 - 1) <<< 16 := by decide
  have h2 : 65536 * (x / 65536 % 65536) = ((x >>> 16) % 2 ^ 16) <<< 16 := by
    rw [Nat.shiftLeft_eq, Nat.shiftRight_eq_div_pow]; norm_num [Nat.mul_comm]
  rw [h2, h]
  apply Nat.eq_of_testBit_eq
  intro i
  rw [Nat.testBit_and, Nat.testBit_shiftLeft, Nat.testBit_two_pow_sub_one,
    Nat.testBit_shiftLeft, Nat.testBit_mod_two_pow, Nat.testBit_shiftRight]
  by_cases h16 : 16 ≤ i
  · have : 16 + (i - 16) = i := by omega
    simp [h16, this]
    by_cases h3 : i - 16 < 16 <;> simp [h3]
  · simp [h16]

theorem hi_or_lo (h l : Nat) (hl : l < 65536) : (65536 * h) ||| l = 65536 * h + l :=
  (Nat.mul_add_lt_is_or (i := 16) (b := l) hl h).symm

theorem or_le_add (x y : Nat) : x ||| y ≤ x + y := by
  induction x using Nat.strong_induction_on generalizing y with
  | _ x ih =>
    by_cases hx : x = 0
    · subst hx; simp
    · have h1 := ih (x / 2) (by omega) (y / 2)
      rw [← Nat.or_div_two] at h1
      have h2 : (x ||| y) % 2 ≤ x % 2 + y % 2 := by
        by_cases h : (x ||| y) % 2 = 1
        · have := Nat.or_mod_two_eq_one.mp h
          omega
        · omega
      omega

theorem le_or_left (x y : Nat) : x ≤ x ||| y :=
  Nat.le_of_testBit (fun i h => by simp [h])

theorem getD_writeBytes (buf : List Nat) (off : Nat) (src : List Nat) (k : Nat)
    (h : off ≤ buf.length) (hk : k < src.length) :
    (writeBytes buf off src).getD (off + k) 0 = src.getD k 0 := by
  have hlen : (buf.take off).length = off := by simp; omega
  unfold writeBytes
  rw [List.getD_eq_getElem?_getD, List.getD_eq_getElem?_getD, List.append_assoc,
    List.getElem?_append_right (by rw [hlen]; omega), hlen, Nat.add_sub_cancel_left,
    List.getElem?_append_left hk]

theorem read32_write32 (buf : List Nat) (off w : Nat) (h : off + 4 ≤ buf.length) :
    read32 (write32 buf off w) off = w % 4294967296 := by
  have h0 := getD_writeBytes buf off (bytes32 w) 0 (by omega) (by simp [bytes32])
  have h1 := getD_writeBytes buf off (bytes32 w) 1 (by omega) (by simp [bytes32])
  have h2 := getD_writeBytes buf off (bytes32 w) 2 (by omega) (by simp [bytes32])
  have h3 := getD_writeBytes buf off (bytes32 w) 3 (by omega) (by simp [bytes32])
  rw [Nat.add_zero] at h0
  unfold read32 write32
  rw [h0, h1, h2, h3]
  simp [bytes32]
  omega

theorem newstate_R_MIPS_32 (V A : Nat) :
    newstate R_MIPS_32 V (toS32 V) A = some ((V + A) % 4294967296) := by
  simp only [newstate, if_true]
  congr 1
  unfold toU32 toS32
  split_ifs <;> omega

theorem newstate_R_MIPS_HI16 (W A : Nat) :
    newstate R_MIPS_HI16 W (toS32 W) A =
      some (65536 * (W / 65536 % 65536)
        + toU32 (signExtend16 W + ((A >>> 16 : Nat) : Int)
            + (if A &&& 0xffff ≥ 0x8000 then 1 else 0)) % 65536) := by
  have h1 : R_MIPS_HI16 ≠ R_MIPS_32 := by decide
  have h2 : R_MIPS_HI16 ≠ R_MIPS_26 := by decide
  simp only [newstate, h1, h2, if_false, if_true]
  rw [shl_sar_16, and_ffff, and_ffff0000, hi_or_lo _ _ (Nat.mod_lt _ (by decide))]

theorem ApplyMipsReloc_of_newstate (bytes : List Nat) (reloc type addr w : Nat)
    (h : reloc + 4 ≤ bytes.length)
    (hw : newstate type (read32 bytes reloc) (toS32 (read32 bytes reloc)) addr = some w) :
    ApplyMipsReloc bytes reloc type addr = some (0, write32 bytes reloc w) := by
  simp [ApplyMipsReloc, h, hw]

/-- C7. `ApplyMipsReloc` with kind `R_MIPS_HI16`, on the word `W` at the target
and two source addresses with the same upper 16 bits, one with
`(A_c & 0xFFFF) >= 0x8000` and one with `(A_n & 0xFFFF) < 0x8000`: both calls
succeed and keep the upper 16 bits of `W`; the low 16 bits of the result for
`A_c` are those for `A_n` plus one modulo `2^16`; and in each case the low 16
bits are (sign-extended low 16 of `W` + (`A >> 16`) + carry) modulo `2^16`. -/
theorem ApplyMipsReloc_HI16_carry (bytes : List Nat) (reloc A_c A_n : Nat)
    (h : reloc + 4 ≤ bytes.length) (hhi : A_c >>> 16 = A_n >>> 16)
    (hc : A_c &&& 0xffff ≥ 0x8000) (hn : A_n &&& 0xffff < 0x8000) :
    ∃ b_c b_n,
      ApplyMipsReloc bytes reloc R_MIPS_HI16 A_c = some (0, b_c) ∧
      ApplyMipsReloc bytes reloc R_MIPS_HI16 A_n = some (0, b_n) ∧
      read32 b_c reloc &&& 0xffff0000 = read32 bytes reloc &&& 0xffff0000 ∧
      read32 b_n reloc &&& 0xffff0000 = read32 bytes reloc &&& 0xffff0000 ∧
      read32 b_c reloc &&& 0xffff = ((read32 b_n reloc &&& 0xffff) + 1) % 65536 ∧
      ((read32 b_c reloc &&& 0xffff : Nat) : Int)
        = (signExtend16 (read32 bytes reloc) + ((A_c >>> 16 : Nat) : Int) + 1) % 65536 ∧
      ((read32 b_n reloc &&& 0xffff : Nat) : Int)
        = (signExtend16 (read32 bytes reloc) + ((A_n >>> 16 : Nat) : Int) + 0) % 65536 := by
  have ec := newstate_R_MIPS_HI16 (read32 bytes reloc) A_c
  have en := newstate_R_MIPS_HI16 (read32 bytes reloc) A_n
  rw [if_pos hc] at ec
  rw [if_neg (by omega)] at en
  refine ⟨_, _, ApplyMipsReloc_of_newstate _ _ _ _ _ h ec,
    ApplyMipsReloc_of_newstate _ _ _ _ _ h en, ?_⟩
  rw [read32_write32 _ _ _ h, read32_write32 _ _ _ h, hhi]
  simp only [and_ffff, and_ffff0000]
  generalize signExtend16 (read32 bytes reloc) = s
  generalize read32 bytes reloc = W
  generalize A_n >>> 16 = a
  unfold toU32
  refine ⟨?_, ?_, ?_, ?_, ?_⟩ <;> omega

theorem ApplyMipsReloc_HI16_carry_witness :
    (0 + 4 ≤ [0xff, 0xff, 0x01, 0x3c].length ∧ 0x128000 >>> 16 = 0x120000 >>> 16
      ∧ 0x128000 &&& 0xffff ≥ 0x8000 ∧ 0x120000 &&& 0xffff < 0x8000) ∧
    ∃ b_c b_n,
      ApplyMipsReloc [0xff, 0xff, 0x01, 0x3c] 0 R_MIPS_HI16 0x128000 = some (0, b_c) ∧
      ApplyMipsReloc [0xff, 0xff, 0x01, 0x3c] 0 R_MIPS_HI16 0x120000 = some (0, b_n) ∧
      read32 b_c 0 &&& 0xffff0000 = read32 [0xff, 0xff, 0x01, 0x3c] 0 &&& 0xffff0000 ∧
      read32 b_n 0 &&& 0xffff0000 = read32 [0xff, 0xff, 0x01, 0x3c] 0 &&& 0xffff0000 ∧
      read32 b_c 0 &&& 0xffff = ((read32 b_n 0 &&& 0xffff) + 1) % 65536 ∧
      ((read32 b_c 0 &&& 0xffff : Nat) : Int)
        = (signExtend16 (read32 [0xff, 0xff, 0x01, 0x3c] 0) + ((0x128000 >>> 16 : Nat) : Int) + 1) % 65536 ∧
      ((read32 b_n 0 &&& 0xffff : Nat) : Int)
        = (signExtend16 (read32 [0xff, 0xff, 0x01, 0x3c] 0) + ((0x120000 >>> 16 : Nat) : Int) + 0) % 65536 :=
  ⟨⟨by decide, by decide, by decide, by decide⟩,
    ApplyMipsReloc_HI16_carry [0xff, 0xff, 0x01, 0x3c] 0 0x128000 0x120000
      (by decide) (by decide) (by decide) (by decide)⟩

/-- C6. A relocation entry of kind `R_MIPS_32` whose symbol has type SECTION:
with `V` the word at the target `sh_addr(relocating section) + r_offset` and
`B = base + sh_addr(section st_shndx)` the source section base, the entry is
applied without error, the word at the target becomes `(V + B) mod 2^32`, and
the outcome is the same for every value of `r_addend`. -/
theorem relocEntry_SECTION_R_MIPS_32 (base : Nat) (sections : List elf_section_t)
    (symtab : List elf_symbol_t) (info : Nat) (bytes : List Nat) (r : elf_reloca_t)
    (sym : elf_symbol_t) (relocating_section symsec : elf_section_t)
    (hsym : symtab[r.r_info >>> 8]? = some sym) (hty : sym.st_info &&& 15 = SECTION)
    (hkind : r.r_info &&& 255 = R_MIPS_32)
    (hrs : sections[info]? = some relocating_section)
    (hss : sections[sym.st_shndx]? = some symsec)
    (hoff : (relocating_section.sh_addr + r.r_offset) % 4294967296 + 4 ≤ bytes.length) :
    ∃ b, relocEntry base sections symtab info bytes r = (b, none) ∧
      read32 b ((relocating_section.sh_addr + r.r_offset) % 4294967296)
        = (read32 bytes ((relocating_section.sh_addr + r.r_offset) % 4294967296)
            + (base + symsec.sh_addr) % 4294967296) % 4294967296 ∧
      ∀ a : Int, relocEntry base sections symtab info bytes { r with r_addend := a }
        = relocEntry base sections symtab info bytes r := by
  have hne : SECTION ≠ NOTYPE := by decide
  have happ := ApplyMipsReloc_of_newstate bytes _ R_MIPS_32 ((base + symsec.sh_addr) % 4294967296) _
    hoff (newstate_R_MIPS_32 _ _)
  have e : relocEntry base sections symtab info bytes r
      = (write32 bytes ((relocating_section.sh_addr + r.r_offset) % 4294967296)
          ((read32 bytes ((relocating_section.sh_addr + r.r_offset) % 4294967296)
            + (base + symsec.sh_addr) % 4294967296) % 4294967296), none) := by
    simp only [relocEntry, hsym, hty, hne, if_false, if_true, hrs, hss, hkind, happ]
    simp
  exact ⟨_, e, by rw [read32_write32 _ _ _ hoff]; omega, fun a => rfl⟩

/-! ## The layout loop -/

theorem Align_bounds (r a : Nat) (ha : 1 ≤ a) (h : r + a < 4294967296) :
    r ≤ Align r a ∧ Align r a ≤ r + a := by
  have hm : (a + 4294967295) % 4294967296 = a - 1 := by omega
  unfold Align
  simp only [hm]
  split_ifs with hc
  · have h1 := or_le_add r (a - 1)
    have h2 := le_or_left r (a - 1)
    omega
  · omega

theorem layoutStep_fullsize_of_not (st : LayoutState) (i : Nat) (sec : elf_section_t)
    (h : allocatable sec = false) :
    (layoutStep st i sec).1.fullsize = st.fullsize ∧ (layoutStep st i sec).2 = sec := by
  simp only [allocatable, decide_eq_false_iff_not] at h
  unfold layoutStep
  simp only [h, if_false]
  constructor
  · split_ifs <;> rfl
  · trivial

theorem layoutStep_of_alloc (st : LayoutState) (i : Nat) (sec : elf_section_t)
    (h : allocatable sec = true) :
    (layoutStep st i sec).1.fullsize
        = (Align st.fullsize sec.sh_addralign + sec.sh_size) % 4294967296 ∧
      (layoutStep st i sec).2 = { sec with sh_addr := Align st.fullsize sec.sh_addralign } := by
  simp only [allocatable, decide_eq_true_eq] at h
  unfold layoutStep
  simp only [h, if_true]
  constructor <;> split_ifs <;> rfl

theorem layoutLoop_ranges (secs : List elf_section_t) :
    ∀ (st : LayoutState) (i : Nat),
      (∀ s ∈ secs, allocatable s = true → 1 ≤ s.sh_addralign) →
      st.fullsize + roomBound secs < 4294967296 →
      (∀ a ∈ ((layoutLoop st i secs).2.filter allocatable).map (fun s => (s.sh_addr, s.sh_size)),
          st.fullsize ≤ a.1 ∧ a.1 + a.2 ≤ (layoutLoop st i secs).1.fullsize) ∧
      List.Pairwise (fun a b : Nat × Nat => a.1 + a.2 ≤ b.1)
        (((layoutLoop st i secs).2.filter allocatable).map (fun s => (s.sh_addr, s.sh_size))) ∧
      st.fullsize ≤ (layoutLoop st i secs).1.fullsize ∧
      (layoutLoop st i secs).1.fullsize
        = st.fullsize
          + ((((layoutLoop st i secs).2.filter allocatable).map
                (fun s => (s.sh_addr, s.sh_size))).map (fun a => a.2)).sum
          + (gaps st.fullsize (((layoutLoop st i secs).2.filter allocatable).map
                (fun s => (s.sh_addr, s.sh_size)))).sum := by
  induction secs with
  | nil =>
    intro st i _ _
    simp [layoutLoop, gaps]
  | cons sec rest ih =>
    intro st i halign hfit
    have halign' : ∀ s ∈ rest, allocatable s = true → 1 ≤ s.sh_addralign :=
      fun s hs => halign s (List.mem_cons_of_mem _ hs)
    cases hal : allocatable sec with
    | false =>
      obtain ⟨e1, e2⟩ := layoutStep_fullsize_of_not st i sec hal
      have hfit' : (layoutStep st i sec).1.fullsize + roomBound rest < 4294967296 := by
        rw [e1]; simpa [roomBound, hal] using hfit
      have := ih (layoutStep st i sec).1 (i + 1) halign' hfit'
      rw [e1] at this
      simpa [layoutLoop, e2, hal] using this
    | true =>
      obtain ⟨e1, e2⟩ := layoutStep_of_alloc st i sec hal
      have ha := halign sec (List.mem_cons_self _ _) hal
      have hroom : roomBound (sec :: rest) = sec.sh_size + sec.sh_addralign + roomBound rest := by
        simp [roomBound, hal]
      rw [hroom] at hfit
      obtain ⟨b1, b2⟩ := Align_bounds st.fullsize sec.sh_addralign ha (by omega)
      have e1' : (layoutStep st i sec).1.fullsize
          = Align st.fullsize sec.sh_addralign + sec.sh_size := by
        rw [e1]; omega
      have hfit' : (layoutStep st i sec).1.fullsize + roomBound rest < 4294967296 := by
        rw [e1']; omega
      obtain ⟨i1, i2, i3, i4⟩ := ih (layoutStep st i sec).1 (i + 1) halign' hfit'
      rw [e1'] at i1 i3 i4
      have hal2 : allocatable { sec with sh_addr := Align st.fullsize sec.sh_addralign } = true := by
        simpa [allocatable] using hal
      simp only [layoutLoop, e2, List.filter_cons, hal2, if_true, List.map_cons, gaps,
        List.sum_cons, List.pairwise_cons, List.mem_cons, forall_eq_or_imp]
      refine ⟨⟨⟨b1, by omega⟩, fun a h => ⟨by have := (i1 a h).1; omega, (i1 a h).2⟩⟩,
        ⟨fun a h => (i1 a h).1, i2⟩, by omega, ?_⟩
      rw [i4]
      omega

/-! ## Runs of `Load` that return `NO_ERROR` -/

theorem namesInRange_elim (f : ErlFile) (secs : List elf_section_t)
    (h : namesInRange f secs = true) :
    ∃ shstrsec, f.sections[f.e_shstrndx]? = some shstrsec
      ∧ namesInside shstrsec.sh_size secs = true := by
  unfold namesInRange at h
  cases hs : f.sections[f.e_shstrndx]? with
  | none => rw [hs] at h; exact absurd h (by simp)
  | some shstrsec => rw [hs] at h; exact ⟨shstrsec, rfl, h⟩

theorem Load_run_of_ok (host : Host) (self : ImageImpl) (f : ErlFile) (run : LoadRun)
    (hrun : ImageImpl.Load host self (some f) = run) (h : run.ret = none) :
    passesValidation f ∧
    ∃ base b1 b2 t,
      host.alloc (layout f.sections).1.fullsize = some base ∧
      loadSections f (freshBytes host f) (layout f.sections).2.tail = (b1, none) ∧
      relocSections host f base (layout f.sections).2 (symtabOf f) b1 0 (layout f.sections).2
        = (b2, none) ∧
      exportSymbols base (layout f.sections).2 (HashTable.Init 64) (symtabOf f) = (t, none) ∧
      run.self = ⟨t, some b2, (layout f.sections).1.fullsize, some (symtabOf f)⟩ ∧
      run.entry = some (ImageImpl.ResolveSymbol
            ⟨t, some b2, (layout f.sections).1.fullsize, some (symtabOf f)⟩ "_start") := by
  subst hrun
  unfold passesValidation freshBytes symtabOf
  unfold ImageImpl.Load at h ⊢
  simp only [] at h ⊢
  by_cases c1 : f.ei_magic.getD 0 0 ≠ 0o77 ∧ f.ei_magic.getD 1 0 ≠ 69 ∧ f.ei_magic.getD 2 0 ≠ 76
      ∧ f.ei_magic.getD 3 0 ≠ 70
  · rw [if_pos c1] at h; exact absurd h (by simp)
  rw [if_neg c1] at h ⊢
  by_cases c2 : f.e_type ≠ REL_TYPE
  · rw [if_pos c2] at h; exact absurd h (by simp)
  rw [if_neg c2] at h ⊢
  by_cases c3 : sizeof_elf_section_t ≠ f.e_shentsize
  · rw [if_pos c3] at h; exact absurd h (by simp)
  rw [if_neg c3] at h ⊢
  cases ha1 : host.alloc (f.sections.length * sizeof_elf_section_t) with
  | none => simp only [ha1] at h; exact absurd h (by simp)
  | some v1 =>
    simp only [ha1] at h ⊢
    cases hs : f.sections[f.e_shstrndx]? with
    | none => simp only [hs] at h; exact absurd h (by simp)
    | some shstr =>
      simp only [hs] at h ⊢
      by_cases c4 : ¬ namesInside shstr.sh_size f.sections.tail = true
      · rw [if_pos c4] at h; exact absurd h (by simp)
      rw [if_neg c4] at h ⊢
      by_cases c5 : (layout f.sections).1.symtab_index = 0
      · rw [if_pos c5] at h; exact absurd h (by simp)
      rw [if_neg c5] at h ⊢
      by_cases c6 : (layout f.sections).1.strtab_index = 0
      · rw [if_pos c6] at h; exact absurd h (by simp)
      rw [if_neg c6] at h ⊢
      by_cases c7 : (layout f.sections).1.strtab_index ≠ (layout f.sections).1.linked_strtab_index
      · rw [if_pos c7] at h; exact absurd h (by simp)
      rw [if_neg c7] at h ⊢
      by_cases c8 : sizeof_elf_symbol_t
          ≠ ((layout f.sections).2.getD (layout f.sections).1.symtab_index
              ⟨"", 0, 0, 0, 0, 0, 0, 0, 0, 0⟩).sh_entsize
      · rw [if_pos c8] at h; exact absurd h (by simp)
      rw [if_neg c8] at h ⊢
      cases ha2 : host.alloc (layout f.sections).1.fullsize with
      | none => simp only [ha2] at h; exact absurd h (by simp)
      | some base =>
        simp only [ha2] at h ⊢
        cases hl : loadSections f
            (List.map (fun i => host.garbage i % 256) (List.range (layout f.sections).1.fullsize))
            (layout f.sections).2.tail with
        | mk b1 stop1 =>
          cases stop1 with
          | some e => simp only [hl] at h; exact absurd h (by simp)
          | none =>
            simp only [hl] at h ⊢
            cases ha3 : host.alloc
                ((f.symbols (layout f.sections).1.symtab_index).length * sizeof_elf_symbol_t) with
            | none => simp only [ha3] at h; exact absurd h (by simp)
            | some v3 =>
              simp only [ha3] at h ⊢
              by_cases c9 : ¬ namesInside shstr.sh_size (f.sections.take 1) = true
              · rw [if_pos c9] at h; exact absurd h (by simp)
              rw [if_neg c9] at h ⊢
              cases hr : relocSections host f base (layout f.sections).2
                  (f.symbols (layout f.sections).1.symtab_index) b1 0 (layout f.sections).2 with
              | mk b2 stop2 =>
                cases stop2 with
                | some e => simp only [hr] at h; exact absurd h (by simp)
                | none =>
                  simp only [hr] at h ⊢
                  cases hx : exportSymbols base (layout f.sections).2 (HashTable.Init 64)
                      (f.symbols (layout f.sections).1.symtab_index) with
                  | mk t stop3 =>
                    cases stop3 with
                    | some e => simp only [hx] at h; exact absurd h (by simp)
                    | none =>
                      simp only [hx]
                      exact ⟨⟨c1, not_not.mp c2, not_not.mp c3, c5, c6, not_not.mp c7,
                        not_not.mp c8⟩, base, b1, b2, t, rfl, rfl, hr, hx, rfl, rfl⟩

theorem Load_of_ok (host : Host) (self : ImageImpl) (f : ErlFile)
    (h : (ImageImpl.Load host self (some f)).ret = none) :
    passesValidation f ∧
    ∃ base b1 b2 t,
      host.alloc (layout f.sections).1.fullsize = some base ∧
      loadSections f (freshBytes host f) (layout f.sections).2.tail = (b1, none) ∧
      relocSections host f base (layout f.sections).2 (symtabOf f) b1 0 (layout f.sections).2
        = (b2, none) ∧
      exportSymbols base (layout f.sections).2 (HashTable.Init 64) (symtabOf f) = (t, none) ∧
      (ImageImpl.Load host self (some f)).self
        = ⟨t, some b2, (layout f.sections).1.fullsize, some (symtabOf f)⟩ ∧
      (ImageImpl.Load host self (some f)).entry
        = some (ImageImpl.ResolveSymbol
            ⟨t, some b2, (layout f.sections).1.fullsize, some (symtabOf f)⟩ "_start") :=
  Load_run_of_ok host self f _ rfl h

/-! ## The export loop -/

theorem MaybeGet_Set (t : HashTable) (k : String) (v : Nat) (name : String) :
    (t.Set k v).MaybeGet name = if name = k then some v else t.MaybeGet name := by
  unfold HashTable.Set HashTable.MaybeGet
  rw [List.lookup_cons]
  by_cases h : name = k
  · simp [h]
  · have : (name == k) = false := by simpa using h
    simp [h, this]

theorem exportSymbols_ok (base : Nat) (sections : List elf_section_t) (symtab : List elf_symbol_t) :
    ∀ t0 : HashTable,
      (∀ sym ∈ symtab, exported sym = true → sym.st_shndx < sections.length) →
      ∃ t, exportSymbols base sections t0 symtab = (t, none) := by
  induction symtab with
  | nil => intro t0 _; exact ⟨t0, rfl⟩
  | cons sym rest ih =>
    intro t0 hidx
    have hrest : ∀ s ∈ rest, exported s = true → s.st_shndx < sections.length :=
      fun s hs => hidx s (List.mem_cons_of_mem _ hs)
    cases hex : exported sym with
    | false =>
      obtain ⟨t, ht⟩ := ih t0 hrest
      exact ⟨t, by simp [exportSymbols, exportSymbol, hex, ht]⟩
    | true =>
      have hlt := hidx sym (List.mem_cons_self _ _) hex
      obtain ⟨t, ht⟩ := ih (t0.Set sym.name
        ((base + ((sections[sym.st_shndx]).sh_addr + sym.st_value) % 4294967296) % 4294967296)) hrest
      refine ⟨t, ?_⟩
      rw [exportSymbols]
      simp only [exportSymbol, hex, if_true, List.getElem?_eq_getElem hlt]
      rw [ht]

theorem exportSymbols_lookup (base : Nat) (sections : List elf_section_t)
    (symtab : List elf_symbol_t) :
    ∀ (t0 t : HashTable), exportSymbols base sections t0 symtab = (t, none) →
      ∀ name : String,
        ((t.MaybeGet name).isSome ↔
          ((t0.MaybeGet name).isSome ∨ ∃ sym ∈ symtab, sym.name = name ∧ exported sym = true)) ∧
        ∀ addr, t.MaybeGet name = some addr →
          (t0.MaybeGet name = some addr ∨
            ∃ sym ∈ symtab, sym.name = name ∧ exported sym = true ∧
              ∃ sec, sections[sym.st_shndx]? = some sec ∧
                addr = (base + sec.sh_addr + sym.st_value) % 4294967296) := by
  induction symtab with
  | nil =>
    intro t0 t h name
    simp only [exportSymbols, Prod.mk.injEq, and_true] at h
    subst h
    simp
  | cons sym rest ih =>
    intro t0 t h name
    unfold exportSymbols at h
    cases hex : exported sym with
    | false =>
      simp only [exportSymbol, hex, Bool.false_eq_true, if_false] at h
      obtain ⟨i1, i2⟩ := ih t0 t h name
      constructor
      · rw [i1]
        constructor
        · rintro (h1 | ⟨s, hs, hn, he⟩)
          · exact Or.inl h1
          · exact Or.inr ⟨s, List.mem_cons_of_mem _ hs, hn, he⟩
        · rintro (h1 | ⟨s, hs, hn, he⟩)
          · exact Or.inl h1
          · rcases List.mem_cons.mp hs with rfl | hs
            · rw [hex] at he; exact absurd he (by decide)
            · exact Or.inr ⟨s, hs, hn, he⟩
      · intro addr ha
        rcases i2 addr ha with h1 | ⟨s, hs, rest⟩
        · exact Or.inl h1
        · exact Or.inr ⟨s, List.mem_cons_of_mem _ hs, rest⟩
    | true =>
      simp only [exportSymbol, hex, if_true] at h
      cases hsec : sections[sym.st_shndx]? with
      | none => simp [hsec] at h
      | some sec =>
        simp only [hsec] at h
        obtain ⟨i1, i2⟩ := ih _ t h name
        rw [MaybeGet_Set] at i1 i2
        constructor
        · rw [i1]
          constructor
          · rintro (h1 | ⟨s, hs, hn, he⟩)
            · by_cases hn : name = sym.name
              · exact Or.inr ⟨sym, List.mem_cons_self _ _, hn.symm, hex⟩
              · rw [if_neg hn] at h1; exact Or.inl h1
            · exact Or.inr ⟨s, List.mem_cons_of_mem _ hs, hn, he⟩
          · rintro (h1 | ⟨s, hs, hn, he⟩)
            · by_cases hn : name = sym.name
              · left; simp [hn]
              · left; rw [if_neg hn]; exact h1
            · rcases List.mem_cons.mp hs with rfl | hs
              · left; simp [hn]
              · exact Or.inr ⟨s, hs, hn, he⟩
        · intro addr ha
          rcases i2 addr ha with h1 | ⟨s, hs, rest⟩
          · by_cases hn : name = sym.name
            · rw [if_pos hn] at h1
              refine Or.inr ⟨sym, List.mem_cons_self _ _, hn.symm, hex, sec, hsec, ?_⟩
              have := Option.some.inj h1
              omega
            · rw [if_neg hn] at h1; exact Or.inl h1
          · exact Or.inr ⟨s, List.mem_cons_of_mem _ hs, rest⟩

theorem MaybeGet_Init (n : Nat) (name : String) : (HashTable.Init n).MaybeGet name = none := rfl

/-! ## The relocation loops -/

theorem length_writeBytes (buf : List Nat) (off : Nat) (src : List Nat)
    (h : off + src.length ≤ buf.length) : (writeBytes buf off src).length = buf.length := by
  simp [writeBytes]
  omega

/-- C1. The header bytes of `badMagicFile` are `0x7F 'E' 'L' 'G'`, not the ELF
magic, yet the magic test of `Load` lets it pass: `Load` does not return
`NotElf`, it loads the container and returns `NO_ERROR`. -/
theorem Load_badMagic :
    badMagicFile.ei_magic = [0x7f, 69, 76, 71] ∧
    (ImageImpl.Load sampleHost ImageImpl.fresh (some badMagicFile)).ret
      ≠ some (Stop.error ErlLoadError.NotElf) ∧
    (ImageImpl.Load sampleHost ImageImpl.fresh (some badMagicFile)).ret = none := by
  decide

/-- C2. The container `noStartFile` passes validation and relocation and
exports no symbol named `_start`; `Load` does not return `NoSymbols`: it
transfers control to the address `0xFFFFFFFF` that `ResolveSymbol` gives for a
name that is not found, and returns `NO_ERROR`. -/
theorem Load_noStart :
    passesValidation noStartFile ∧
    (∀ sym ∈ symtabOf noStartFile, sym.name ≠ "_start") ∧
    (ImageImpl.Load sampleHost ImageImpl.fresh (some noStartFile)).ret = none ∧
    (ImageImpl.Load sampleHost ImageImpl.fresh (some noStartFile)).entry = some 4294967295 := by
  decide

/-- C4. In `objRelocFile` the relocation entry at offset 8 of `.text`
references the OBJECT symbol `var` at offset 4 of `.data` (image offset 20).
`Load` leaves the word at image offset `sh_addr(.text) + r_offset = 8`
unchanged (3), and rewrites the word at image offset
`sh_addr(.text) + st_value = 4` instead, with the source address
`base + 4`: 2 becomes `2 + 0x100004`. -/
theorem Load_objReloc :
    (ImageImpl.Load sampleHost ImageImpl.fresh (some objRelocFile)).ret = none ∧
    ∃ b, (ImageImpl.Load sampleHost ImageImpl.fresh (some objRelocFile)).self.bytes = some b ∧
      read32 b 8 = 3 ∧ read32 b 8 ≠ (3 + (0x100000 + 16 + 4)) % 4294967296 ∧
      read32 b 4 = (2 + (0x100000 + 4)) % 4294967296 :=
  ⟨by decide, [1, 0, 0, 0, 6, 0, 16, 0, 3, 0, 0, 0, 4, 0, 0, 0, 5, 0, 0, 0, 6, 0, 0, 0],
    by decide, by decide, by decide, by decide⟩

/-- C5 (counterexample). In `overlapSections` the second PROGBITS section has
alignment 0: `Align(8, 0)` is 0, both sections are assigned the range starting
at 0 and `fullsize` is 4, less than the 12 bytes of the two sections. In
`wrapSections` the running total wraps at `2^32`: the second range ends beyond
`fullsize`. -/
theorem layout_overlap :
    ranges (layout overlapSections).2 = [(0, 8), (0, 4)] ∧
    (layout overlapSections).1.fullsize = 4 ∧
    ¬ List.Pairwise (fun a b : Nat × Nat => a.1 + a.2 ≤ b.1) (ranges (layout overlapSections).2) ∧
    (layout overlapSections).1.fullsize
      ≠ ((ranges (layout overlapSections).2).map (fun a => a.2)).sum
        + (gaps 0 (ranges (layout overlapSections).2)).sum ∧
    ¬ (∀ a ∈ ranges (layout wrapSections).2, a.1 + a.2 ≤ (layout wrapSections).1.fullsize) := by
  decide

/-- C5 (as amended). For every section table whose PROGBITS/NOBITS sections
from index 1 on have an alignment of at least 1 and whose sizes plus alignments
add up to less than `2^32`: after the layout loop the assigned ranges
`[sh_addr, sh_addr + sh_size)` are pairwise non-overlapping and in file order
(each ends where or before the next begins), each lies inside `[0, fullsize)`,
and `fullsize` is the sum of the sizes plus the padding before each range. -/
theorem layout_ranges (secs : List elf_section_t)
    (halign : ∀ s ∈ secs.tail, allocatable s = true → 1 ≤ s.sh_addralign)
    (hfit : roomBound secs.tail < 4294967296) :
    List.Pairwise (fun a b : Nat × Nat => a.1 + a.2 ≤ b.1) (ranges (layout secs).2) ∧
    (∀ a ∈ ranges (layout secs).2, a.1 + a.2 ≤ (layout secs).1.fullsize) ∧
    (layout secs).1.fullsize
      = ((ranges (layout secs).2).map (fun a => a.2)).sum + (gaps 0 (ranges (layout secs).2)).sum := by
  cases secs with
  | nil => simp [layout, ranges, gaps]
  | cons s0 rest =>
    obtain ⟨h1, h2, _, h4⟩ := layoutLoop_ranges rest ⟨0, 0, 0, 0⟩ 1 halign
      (by simpa using hfit)
    simp only [Nat.zero_add] at h4
    exact ⟨h2, fun a ha => (h1 a ha).2, h4⟩

theorem layout_ranges_witness :
    roomBound sampleFile.sections.tail < 4294967296 ∧
    List.Pairwise (fun a b : Nat × Nat => a.1 + a.2 ≤ b.1) (ranges (layout sampleFile.sections).2) ∧
    (∀ a ∈ ranges (layout sampleFile.sections).2,
      a.1 + a.2 ≤ (layout sampleFile.sections).1.fullsize) ∧
    (layout sampleFile.sections).1.fullsize
      = ((ranges (layout sampleFile.sections).2).map (fun a => a.2)).sum
        + (gaps 0 (ranges (layout sampleFile.sections).2)).sum :=
  ⟨by decide, layout_ranges sampleFile.sections (by decide) (by decide)⟩

theorem relocEntry_SECTION_R_MIPS_32_witness :
    [⟨"", 0, 0, 0, 0, 0⟩, ⟨"", 0, 0, 3, 0, 2⟩][(⟨4, 0x102, 7⟩ : elf_reloca_t).r_info >>> 8]?
      = some (⟨"", 0, 0, 3, 0, 2⟩ : elf_symbol_t) ∧
    ∃ b, relocEntry 0x100000 (layout sampleFile.sections).2
        [⟨"", 0, 0, 0, 0, 0⟩, ⟨"", 0, 0, 3, 0, 2⟩] 1 [1, 2, 3, 4, 5, 0, 0, 0, 9, 10, 11, 12]
        ⟨4, 0x102, 7⟩ = (b, none) ∧
      read32 b ((0 + 4) % 4294967296)
        = (read32 [1, 2, 3, 4, 5, 0, 0, 0, 9, 10, 11, 12] ((0 + 4) % 4294967296)
            + (0x100000 + 8) % 4294967296) % 4294967296 ∧
      ∀ a : Int, relocEntry 0x100000 (layout sampleFile.sections).2
          [⟨"", 0, 0, 0, 0, 0⟩, ⟨"", 0, 0, 3, 0, 2⟩] 1 [1, 2, 3, 4, 5, 0, 0, 0, 9, 10, 11, 12]
          { (⟨4, 0x102, 7⟩ : elf_reloca_t) with r_addend := a }
        = relocEntry 0x100000 (layout sampleFile.sections).2
          [⟨"", 0, 0, 0, 0, 0⟩, ⟨"", 0, 0, 3, 0, 2⟩] 1 [1, 2, 3, 4, 5, 0, 0, 0, 9, 10, 11, 12]
          ⟨4, 0x102, 7⟩ :=
  ⟨by decide,
    relocEntry_SECTION_R_MIPS_32 0x100000 (layout sampleFile.sections).2
      [⟨"", 0, 0, 0, 0, 0⟩, ⟨"", 0, 0, 3, 0, 2⟩] 1 [1, 2, 3, 4, 5, 0, 0, 0, 9, 10, 11, 12]
      ⟨4, 0x102, 7⟩ ⟨"", 0, 0, 3, 0, 2⟩ ⟨".text", 1, 1, 0, 0, 8, 0, 0, 16, 0⟩
      ⟨".data", 7, 1, 8, 8, 4, 0, 0, 4, 0⟩ (by decide) (by decide) (by decide) (by decide)
      (by decide) (by decide)⟩

theorem Load_exports (host : Host) (self : ImageImpl) (f : ErlFile)
    (h : (ImageImpl.Load host self (some f)).ret = none) :
    ∃ base, host.alloc (layout f.sections).1.fullsize = some base ∧
      ∀ name : String,
        (((ImageImpl.Load host self (some f)).self.symbol_table.MaybeGet name).isSome ↔
          ∃ sym ∈ symtabOf f, sym.name = name
            ∧ (sym.st_info >>> 4 = GLOBAL ∨ sym.st_info >>> 4 = WEAK)
            ∧ sym.st_info &&& 15 ≠ NOTYPE) ∧
        ∀ addr, (ImageImpl.Load host self (some f)).self.symbol_table.MaybeGet name = some addr →
          ∃ sym ∈ symtabOf f, sym.name = name
            ∧ (sym.st_info >>> 4 = GLOBAL ∨ sym.st_info >>> 4 = WEAK)
            ∧ sym.st_info &&& 15 ≠ NOTYPE
            ∧ ∃ sec, (layout f.sections).2[sym.st_shndx]? = some sec ∧
                addr = (base + sec.sh_addr + sym.st_value) % 4294967296 := by
  obtain ⟨_, base, b1, b2, t, hb, _, _, hexp, hself, _⟩ := Load_of_ok host self f h
  refine ⟨base, hb, fun name => ?_⟩
  rw [hself]
  obtain ⟨i1, i2⟩ := exportSymbols_lookup base _ _ _ _ hexp name
  simp only [MaybeGet_Init, Option.isSome_none, Bool.false_eq_true, false_or] at i1 i2
  constructor
  · rw [i1]
    constructor
    · rintro ⟨s, hs, hn, he⟩
      simp only [exported, Bool.decide_and, Bool.and_eq_true, decide_eq_true_eq] at he
      exact ⟨s, hs, hn, by simpa using he.1, by simpa using he.2⟩
    · rintro ⟨s, hs, hn, hb, ht⟩
      exact ⟨s, hs, hn, by simp [exported, hb, ht]⟩
  · intro addr ha
    rcases i2 addr ha with h0 | ⟨s, hs, hn, he, rest⟩
    · exact absurd h0 (by simp)
    · simp only [exported, Bool.decide_and, Bool.and_eq_true, decide_eq_true_eq] at he
      exact ⟨s, hs, hn, by simpa using he.1, by simpa using he.2, rest⟩

/-- C8. After a load that ran the export loop to its end (`Load` returns
`NO_ERROR`), a name is present in the exported symbol map if and only if some
symbol-table entry with that name has binding GLOBAL or WEAK and type other
than NOTYPE; and the address stored for a name is
`base + sh_addr(section st_shndx) + st_value` modulo `2^32` of such an entry. -/
theorem Load_exported_map (host : Host) (self : ImageImpl) (f : ErlFile)
    (h : (ImageImpl.Load host self (some f)).ret = none) :
    ∃ base, host.alloc (layout f.sections).1.fullsize = some base ∧
      ∀ name : String,
        (((ImageImpl.Load host self (some f)).self.symbol_table.MaybeGet name).isSome ↔
          ∃ sym ∈ symtabOf f, sym.name = name
            ∧ (sym.st_info >>> 4 = GLOBAL ∨ sym.st_info >>> 4 = WEAK)
            ∧ sym.st_info &&& 15 ≠ NOTYPE) ∧
        ∀ addr, (ImageImpl.Load host self (some f)).self.symbol_table.MaybeGet name = some addr →
          ∃ sym ∈ symtabOf f, sym.name = name
            ∧ (sym.st_info >>> 4 = GLOBAL ∨ sym.st_info >>> 4 = WEAK)
            ∧ sym.st_info &&& 15 ≠ NOTYPE
            ∧ ∃ sec, (layout f.sections).2[sym.st_shndx]? = some sec ∧
                addr = (base + sec.sh_addr + sym.st_value) % 4294967296 :=
  Load_exports host self f h

theorem Load_exported_map_witness :
    (ImageImpl.Load sampleHost ImageImpl.fresh (some sampleFile)).ret = none ∧
    ∃ base, sampleHost.alloc (layout sampleFile.sections).1.fullsize = some base ∧
      ∀ name : String,
        (((ImageImpl.Load sampleHost ImageImpl.fresh (some sampleFile)).self.symbol_table.MaybeGet
            name).isSome ↔
          ∃ sym ∈ symtabOf sampleFile, sym.name = name
            ∧ (sym.st_info >>> 4 = GLOBAL ∨ sym.st_info >>> 4 = WEAK)
            ∧ sym.st_info &&& 15 ≠ NOTYPE) ∧
        ∀ addr, (ImageImpl.Load sampleHost ImageImpl.fresh (some sampleFile)).self.symbol_table.MaybeGet
            name = some addr →
          ∃ sym ∈ symtabOf sampleFile, sym.name = name
            ∧ (sym.st_info >>> 4 = GLOBAL ∨ sym.st_info >>> 4 = WEAK)
            ∧ sym.st_info &&& 15 ≠ NOTYPE
            ∧ ∃ sec, (layout sampleFile.sections).2[sym.st_shndx]? = some sec ∧
                addr = (base + sec.sh_addr + sym.st_value) % 4294967296 :=
  ⟨by decide, Load_exported_map sampleHost ImageImpl.fresh sampleFile (by decide)⟩

/-- C9. On a successfully loaded image, `ResolveSymbol` gives the same address
whenever it is given the same name, and for every name that no symbol-table
entry with binding GLOBAL or WEAK and type other than NOTYPE carries - in
particular a name carried only by LOCAL-binding or NOTYPE symbols - it returns
the not-found indication `-1` (`0xFFFFFFFF`). -/
theorem ResolveSymbol_loaded (host : Host) (self : ImageImpl) (f : ErlFile)
    (h : (ImageImpl.Load host self (some f)).ret = none) (name : String) :
    (∀ name2 : String, name2 = name →
      (ImageImpl.Load host self (some f)).self.ResolveSymbol name2
        = (ImageImpl.Load host self (some f)).self.ResolveSymbol name) ∧
    ((¬ ∃ sym ∈ symtabOf f, sym.name = name
          ∧ (sym.st_info >>> 4 = GLOBAL ∨ sym.st_info >>> 4 = WEAK)
          ∧ sym.st_info &&& 15 ≠ NOTYPE) →
      (ImageImpl.Load host self (some f)).self.ResolveSymbol name = 4294967295) ∧
    ((∀ sym ∈ symtabOf f, sym.name = name →
          sym.st_info >>> 4 = LOCAL ∨ sym.st_info &&& 15 = NOTYPE) →
      (ImageImpl.Load host self (some f)).self.ResolveSymbol name = 4294967295) := by
  obtain ⟨base, _, hmap⟩ := Load_exports host self f h
  have key : (¬ ∃ sym ∈ symtabOf f, sym.name = name
          ∧ (sym.st_info >>> 4 = GLOBAL ∨ sym.st_info >>> 4 = WEAK)
          ∧ sym.st_info &&& 15 ≠ NOTYPE) →
      (ImageImpl.Load host self (some f)).self.ResolveSymbol name = 4294967295 := by
    intro hno
    have hnone : (ImageImpl.Load host self (some f)).self.symbol_table.MaybeGet name = none := by
      cases hg : (ImageImpl.Load host self (some f)).self.symbol_table.MaybeGet name with
      | none => rfl
      | some a => exact absurd ((hmap name).1.mp (by simp [hg])) hno
    simp [ImageImpl.ResolveSymbol, hnone]
  refine ⟨fun name2 e => by rw [e], key, fun hloc => key ?_⟩
  rintro ⟨sym, hs, hn, hb, ht⟩
  rcases hloc sym hs hn with hl | hl
  · rw [hl] at hb
    rcases hb with hb | hb <;> exact absurd hb (by decide)
  · exact ht hl

theorem ResolveSymbol_loaded_witness :
    (ImageImpl.Load sampleHost ImageImpl.fresh (some sampleFile)).ret = none ∧
    (∀ sym ∈ symtabOf sampleFile, sym.name = "local_fn" →
          sym.st_info >>> 4 = LOCAL ∨ sym.st_info &&& 15 = NOTYPE) ∧
    (ImageImpl.Load sampleHost ImageImpl.fresh (some sampleFile)).self.ResolveSymbol "local_fn"
      = 4294967295 :=
  ⟨by decide, by decide,
    (ResolveSymbol_loaded sampleHost ImageImpl.fresh sampleFile (by decide) "local_fn").2.2
      (by decide)⟩

/-- C10 (counterexample). `collideFile` loads without error and exports `edge`
at `0x100000 + 0 + 0xFFEFFFFF = 0xFFFFFFFF`; the value `ResolveSymbol` returns
for the exported name `edge` is the value it returns for `absent`, a name
that is not exported. -/
theorem ResolveSymbol_collision :
    (ImageImpl.Load sampleHost ImageImpl.fresh (some collideFile)).ret = none ∧
    (ImageImpl.Load sampleHost ImageImpl.fresh (some collideFile)).self.symbol_table.MaybeGet "edge"
      = some 4294967295 ∧
    (ImageImpl.Load sampleHost ImageImpl.fresh (some collideFile)).self.symbol_table.MaybeGet "absent"
      = none ∧
    (ImageImpl.Load sampleHost ImageImpl.fresh (some collideFile)).self.ResolveSymbol "edge"
      = (ImageImpl.Load sampleHost ImageImpl.fresh (some collideFile)).self.ResolveSymbol "absent" := by
  decide

/-- C10 (as amended). `ResolveSymbol` returns `-1` (`0xFFFFFFFF`) for a name
that is not exported. For every loaded image whose buffer ends below the
address `0xFFFFFFFF` and whose exported symbols all lie inside the image, the
value returned for an exported name differs from it. -/
theorem ResolveSymbol_found_ne_notFound (host : Host) (self : ImageImpl) (f : ErlFile)
    (h : (ImageImpl.Load host self (some f)).ret = none) (base : Nat)
    (hb : host.alloc (layout f.sections).1.fullsize = some base)
    (hspace : base + (layout f.sections).1.fullsize < 4294967296)
    (hin : ∀ sym ∈ symtabOf f, exported sym = true →
      insideImage (layout f.sections).2 (layout f.sections).1.fullsize sym = true)
    (n m : String)
    (hn : ((ImageImpl.Load host self (some f)).self.symbol_table.MaybeGet n).isSome = true)
    (hm : (ImageImpl.Load host self (some f)).self.symbol_table.MaybeGet m = none) :
    (ImageImpl.Load host self (some f)).self.ResolveSymbol m = 4294967295 ∧
    (ImageImpl.Load host self (some f)).self.ResolveSymbol n
      ≠ (ImageImpl.Load host self (some f)).self.ResolveSymbol m := by
  obtain ⟨base2, hb2, hmap⟩ := Load_exports host self f h
  have hbase : base2 = base := Option.some.inj (hb2.symm.trans hb)
  subst hbase
  have e1 : (ImageImpl.Load host self (some f)).self.ResolveSymbol m = 4294967295 := by
    simp [ImageImpl.ResolveSymbol, hm]
  refine ⟨e1, ?_⟩
  rw [e1]
  obtain ⟨a, ha⟩ := Option.isSome_iff_exists.mp hn
  obtain ⟨sym, hs, _, hbnd, hty, sec, hsec, haddr⟩ := (hmap n).2 a ha
  have hex : exported sym = true := by simp [exported, hbnd, hty]
  have hi := hin sym hs hex
  simp only [insideImage, hsec, decide_eq_true_eq] at hi
  have e2 : (ImageImpl.Load host self (some f)).self.ResolveSymbol n = a := by
    simp [ImageImpl.ResolveSymbol, ha]
  rw [e2, haddr]
  omega

theorem ResolveSymbol_found_ne_notFound_witness :
    (ImageImpl.Load sampleHost ImageImpl.fresh (some sampleFile)).ret = none ∧
    (ImageImpl.Load sampleHost ImageImpl.fresh (some sampleFile)).self.ResolveSymbol "absent"
      = 4294967295 ∧
    (ImageImpl.Load sampleHost ImageImpl.fresh (some sampleFile)).self.ResolveSymbol "_start"
      ≠ (ImageImpl.Load sampleHost ImageImpl.fresh (some sampleFile)).self.ResolveSymbol "absent" :=
  ⟨by decide,
    ResolveSymbol_found_ne_notFound sampleHost ImageImpl.fresh sampleFile (by decide) 0x100000
      rfl (by decide) (by decide) "_start" "absent" (by decide) (by decide)⟩

/-! ## `LoadErl`, and header checks -/

theorem relocSections_call_irrelevant (alloc : Nat → Option Nat) (garbage : Nat → Nat)
    (c1 c2 : Nat → Int) (f : ErlFile) (base : Nat) (sections : List elf_section_t)
    (symtab : List elf_symbol_t) (rest : List elf_section_t) :
    ∀ (bytes : List Nat) (i : Nat),
      relocSections ⟨alloc, garbage, c1⟩ f base sections symtab bytes i rest
        = relocSections ⟨alloc, garbage, c2⟩ f base sections symtab bytes i rest := by
  induction rest with
  | nil => intro bytes i; rfl
  | cons sec rest ih =>
    intro bytes i
    rw [relocSections, relocSections]
    have e : relocSection ⟨alloc, garbage, c1⟩ f base sections symtab bytes i sec
        = relocSection ⟨alloc, garbage, c2⟩ f base sections symtab bytes i sec := rfl
    rw [e]
    cases relocSection ⟨alloc, garbage, c2⟩ f base sections symtab bytes i sec with
    | mk b stop =>
      cases stop with
      | none => exact ih b (i + 1)
      | some e => rfl

theorem Load_call_irrelevant (alloc : Nat → Option Nat) (garbage : Nat → Nat) (c1 c2 : Nat → Int)
    (self : ImageImpl) (file : Option ErlFile) :
    ImageImpl.Load ⟨alloc, garbage, c1⟩ self file = ImageImpl.Load ⟨alloc, garbage, c2⟩ self file := by
  unfold ImageImpl.Load
  simp only [relocSections_call_irrelevant alloc garbage c1 c2]

/-- C11 (counterexample). Two loads of the sample container that differ only in
the value `_start` returns (0 and 7): both succeed, and the members of the
image, the returned `ErlResult<void>` and the `Image*` handed back by `LoadErl`
are the same. -/
theorem Load_start_result_lost :
    sampleHost.call 0x100000 ≠ sampleHost7.call 0x100000 ∧
    (ImageImpl.Load sampleHost ImageImpl.fresh (some sampleFile)).ret = none ∧
    (ImageImpl.Load sampleHost ImageImpl.fresh (some sampleFile)).entry = some 0x100000 ∧
    (ImageImpl.Load sampleHost ImageImpl.fresh (some sampleFile)).ret
      = (ImageImpl.Load sampleHost7 ImageImpl.fresh (some sampleFile)).ret ∧
    (ImageImpl.Load sampleHost ImageImpl.fresh (some sampleFile)).self
      = (ImageImpl.Load sampleHost7 ImageImpl.fresh (some sampleFile)).self ∧
    LoadErl sampleHost (some sampleFile) = LoadErl sampleHost7 (some sampleFile) := by
  decide

/-- C11 (as amended). The integer returned by the module's entry point is not
part of the result of a load: two loads that differ only in the value `_start`
returns leave the same members, return the same `ErlResult<void>`, and
`LoadErl` hands back the same `Image*`. -/
theorem Load_start_result_discarded (alloc : Nat → Option Nat) (garbage : Nat → Nat)
    (c1 c2 : Nat → Int) (self : ImageImpl) (file : Option ErlFile) :
    ImageImpl.Load ⟨alloc, garbage, c1⟩ self file = ImageImpl.Load ⟨alloc, garbage, c2⟩ self file ∧
    LoadErl ⟨alloc, garbage, c1⟩ file = LoadErl ⟨alloc, garbage, c2⟩ file := by
  refine ⟨Load_call_irrelevant alloc garbage c1 c2 self file, ?_⟩
  simp only [LoadErl, Load_call_irrelevant alloc garbage c1 c2 ImageImpl.fresh file]

/-- C13. A relocatable ELF container (the four magic bytes, type tag
"relocatable") whose `e_shentsize` differs from `sizeof(elf_section_t)`: `Load`
on a fresh `ImageImpl` returns `SizeMismatch`, and when it returns `bytes` is
still null and `fullsize` still 0 (no member has been touched, no entry point
called). -/
theorem Load_shentsize_mismatch (host : Host) (f : ErlFile)
    (hmagic : f.ei_magic = [0x7f, 69, 76, 70])
    (ht : f.e_type = REL_TYPE) (hs : f.e_shentsize ≠ sizeof_elf_section_t) :
    (ImageImpl.Load host ImageImpl.fresh (some f)).ret
      = some (Stop.error ErlLoadError.SizeMismatch) ∧
    (ImageImpl.Load host ImageImpl.fresh (some f)).self.bytes = none ∧
    (ImageImpl.Load host ImageImpl.fresh (some f)).self.fullsize = 0 ∧
    (ImageImpl.Load host ImageImpl.fresh (some f)).self = ImageImpl.fresh ∧
    (ImageImpl.Load host ImageImpl.fresh (some f)).entry = none := by
  have hm : ¬ (f.ei_magic.getD 0 0 ≠ 0o77 ∧ f.ei_magic.getD 1 0 ≠ 69 ∧ f.ei_magic.getD 2 0 ≠ 76
      ∧ f.ei_magic.getD 3 0 ≠ 70) := by
    rw [hmagic]; decide
  have hs2 : sizeof_elf_section_t ≠ f.e_shentsize := fun e => hs e.symm
  unfold ImageImpl.Load
  simp only []
  rw [if_neg hm, if_neg (not_not.mpr ht), if_pos hs2]
  exact ⟨rfl, rfl, rfl, rfl, rfl⟩

theorem Load_shentsize_mismatch_witness :
    shentsizeFile.e_shentsize ≠ sizeof_elf_section_t ∧
    (ImageImpl.Load sampleHost ImageImpl.fresh (some shentsizeFile)).ret
      = some (Stop.error ErlLoadError.SizeMismatch) ∧
    (ImageImpl.Load sampleHost ImageImpl.fresh (some shentsizeFile)).self.bytes = none ∧
    (ImageImpl.Load sampleHost ImageImpl.fresh (some shentsizeFile)).self.fullsize = 0 ∧
    (ImageImpl.Load sampleHost ImageImpl.fresh (some shentsizeFile)).self = ImageImpl.fresh ∧
    (ImageImpl.Load sampleHost ImageImpl.fresh (some shentsizeFile)).entry = none :=
  ⟨by decide, Load_shentsize_mismatch sampleHost shentsizeFile (by decide) (by decide)
    (by decide)⟩

/-- C15. Whenever `Load` ends with a defined result: `LoadErl` returns a
non-null `Image*` if and only if `Load` returned no error; when `Load` returns
an error the guard runs `delete image` exactly once and `LoadErl` returns null;
when `Load` succeeds the guard has been disarmed by `DontCall`, `delete image`
does not run, and the returned image is the one `Load` filled. -/
theorem LoadErl_guard (host : Host) (file : Option ErlFile) :
    (∀ r, LoadErl host file = some r →
      (r.image.isSome = true ↔ (ImageImpl.Load host ImageImpl.fresh file).ret = none)) ∧
    (∀ e, (ImageImpl.Load host ImageImpl.fresh file).ret = some (Stop.error e) →
      LoadErl host file = some ⟨none, 1⟩) ∧
    ((ImageImpl.Load host ImageImpl.fresh file).ret = none →
      LoadErl host file = some ⟨some (ImageImpl.Load host ImageImpl.fresh file).self, 0⟩ ∧
      ScopeExitGuard.new.DontCall.should_call = false) ∧
    ((LoadErl host file).isSome = true ↔
      (ImageImpl.Load host ImageImpl.fresh file).ret ≠ some Stop.outOfRange) := by
  unfold LoadErl
  simp only []
  cases h : (ImageImpl.Load host ImageImpl.fresh file).ret with
  | none => simp [ScopeExitGuard.exit, ScopeExitGuard.new, ScopeExitGuard.DontCall]
  | some s =>
    cases s with
    | outOfRange => simp
    | error e => simp [ScopeExitGuard.exit, ScopeExitGuard.new]

theorem LoadErl_guard_witness :
    ((ImageImpl.Load sampleHost ImageImpl.fresh (some sampleFile)).ret = none ∧
      LoadErl sampleHost (some sampleFile)
        = some ⟨some (ImageImpl.Load sampleHost ImageImpl.fresh (some sampleFile)).self, 0⟩) ∧
    ((ImageImpl.Load sampleHost ImageImpl.fresh (some badKindFile)).ret
        = some (Stop.error ErlLoadError.RelocationError) ∧
      LoadErl sampleHost (some badKindFile) = some ⟨none, 1⟩) :=
  ⟨⟨by decide, ((LoadErl_guard sampleHost (some sampleFile)).2.2.1 (by decide)).1⟩,
    ⟨by decide, (LoadErl_guard sampleHost (some badKindFile)).2.1 ErlLoadError.RelocationError (by decide)⟩⟩

/-- C16. `Align(r, 1)` returns `r` for every `r`; `Align(r, 0)` does not: the
decrement turns the alignment 0 into the mask `0xFFFFFFFF`, and `Align(4, 0)`
is 0, not 4. -/
theorem Align_zero_resets :
    (∀ r, Align r 1 = r) ∧ Align 4 0 = 0 ∧ Align 4 0 ≠ 4 := by
  refine ⟨fun r => ?_, by decide, by decide⟩
  simp [Align]

/-! ## Masks, `R_MIPS_26`, `R_MIPS_LO16` and `Align` on powers of two -/

theorem and_shifted_mask (x k n : Nat) :
    x &&& ((2 ^ n - 1) <<< k) = 2 ^ k * (x / 2 ^ k % 2 ^ n) := by
  have h2 : 2 ^ k * (x / 2 ^ k % 2 ^ n) = ((x >>> k) % 2 ^ n) <<< k := by
    rw [Nat.shiftLeft_eq, Nat.shiftRight_eq_div_pow, Nat.mul_comm]
  rw [h2]
  apply Nat.eq_of_testBit_eq
  intro i
  rw [Nat.testBit_and, Nat.testBit_shiftLeft, Nat.testBit_two_pow_sub_one,
    Nat.testBit_shiftLeft, Nat.testBit_mod_two_pow, Nat.testBit_shiftRight]
  by_cases hk : k ≤ i
  · have : k + (i - k) = i := by omega
    simp [hk, this]
    by_cases h3 : i - k < n <;> simp [h3]
  · simp [hk]

theorem or_low_mask (r k : Nat) : r ||| (2 ^ k - 1) = 2 ^ k * (r / 2 ^ k) + (2 ^ k - 1) := by
  have hlt : 2 ^ k - 1 < 2 ^ k := Nat.sub_lt (Nat.two_pow_pos k) (by decide)
  rw [Nat.mul_add_lt_is_or hlt]
  apply Nat.eq_of_testBit_eq
  intro i
  rw [Nat.testBit_or, Nat.testBit_or, Nat.testBit_two_pow_sub_one]
  have hm : 2 ^ k * (r / 2 ^ k) = (r >>> k) <<< k := by
    rw [Nat.shiftLeft_eq, Nat.shiftRight_eq_div_pow, Nat.mul_comm]
  rw [hm, Nat.testBit_shiftLeft, Nat.testBit_shiftRight]
  by_cases hk : i < k
  · simp [hk]
  · have : k + (i - k) = i := by omega
    simp [hk, this, Nat.le_of_not_lt hk]

theorem and_3ffffff (x : Nat) : x &&& 0x3ffffff = x % 67108864 :=
  Nat.and_pow_two_sub_one_eq_mod x 26

theorem and_fc000000 (x : Nat) : x &&& 0xfc000000 = 67108864 * (x / 67108864 % 64) :=
  and_shifted_mask x 26 6

theorem newstate_R_MIPS_26 (W : Nat) (s : Int) (A : Nat) :
    newstate R_MIPS_26 W s A
      = some (67108864 * (W / 67108864 % 64) + ((W % 67108864) + (A >>> 2)) % 67108864) := by
  have h1 : R_MIPS_26 ≠ R_MIPS_32 := by decide
  simp only [newstate, h1, if_false, if_true]
  rw [and_3ffffff, and_3ffffff, and_fc000000,
    Nat.mul_add_lt_is_or (i := 26) (Nat.mod_lt _ (by decide))]
  congr 2
  omega

theorem newstate_R_MIPS_LO16 (W A : Nat) :
    newstate R_MIPS_LO16 W (toS32 W) A =
      some (65536 * (W / 65536 % 65536)
        + toU32 (signExtend16 W + ((A &&& 0xffff : Nat) : Int)) % 65536) := by
  have h1 : R_MIPS_LO16 ≠ R_MIPS_32 := by decide
  have h2 : R_MIPS_LO16 ≠ R_MIPS_26 := by decide
  have h3 : R_MIPS_LO16 ≠ R_MIPS_HI16 := by decide
  simp only [newstate, h1, h2, h3, if_false, if_true]
  rw [shl_sar_16, and_ffff (toU32 _), and_ffff0000, hi_or_lo _ _ (Nat.mod_lt _ (by decide))]

/-- C18. `ApplyMipsReloc` with kind `R_MIPS_26`, on the word `W` at the target:
the call returns success (0) and the word becomes
`(W & 0xFC000000) | (((W & 0x03FFFFFF) + (A >> 2)) & 0x03FFFFFF)`; its upper 6
bits are those of `W`, whatever the sum in the 26-bit field. -/
theorem ApplyMipsReloc_R_MIPS_26 (bytes : List Nat) (reloc A : Nat)
    (h : reloc + 4 ≤ bytes.length) :
    ∃ b, ApplyMipsReloc bytes reloc R_MIPS_26 A = some (0, b) ∧
      read32 b reloc
        = (read32 bytes reloc &&& 0xfc000000)
          ||| (((read32 bytes reloc &&& 0x03ffffff) + (A >>> 2)) &&& 0x03ffffff) ∧
      read32 b reloc &&& 0xfc000000 = read32 bytes reloc &&& 0xfc000000 := by
  have e := newstate_R_MIPS_26 (read32 bytes reloc) (toS32 (read32 bytes reloc)) A
  refine ⟨_, ApplyMipsReloc_of_newstate _ _ _ _ _ h e, ?_⟩
  rw [read32_write32 _ _ _ h]
  rw [and_3ffffff, and_3ffffff, and_fc000000, and_fc000000,
    ← Nat.mul_add_lt_is_or (i := 26) (Nat.mod_lt _ (by decide))]
  generalize read32 bytes reloc = W
  generalize A >>> 2 = a
  constructor <;> omega

theorem ApplyMipsReloc_R_MIPS_26_witness :
    0 + 4 ≤ [0xff, 0xff, 0xff, 0x0f].length ∧
    ∃ b, ApplyMipsReloc [0xff, 0xff, 0xff, 0x0f] 0 R_MIPS_26 0x100004 = some (0, b) ∧
      read32 b 0
        = (read32 [0xff, 0xff, 0xff, 0x0f] 0 &&& 0xfc000000)
          ||| (((read32 [0xff, 0xff, 0xff, 0x0f] 0 &&& 0x03ffffff) + (0x100004 >>> 2))
                &&& 0x03ffffff) ∧
      read32 b 0 &&& 0xfc000000 = read32 [0xff, 0xff, 0xff, 0x0f] 0 &&& 0xfc000000 :=
  ⟨by decide, ApplyMipsReloc_R_MIPS_26 [0xff, 0xff, 0xff, 0x0f] 0 0x100004 (by decide)⟩

/-- C19. For every 32-bit source address `A` and every pair of words `H`, `L`
whose low 16 bits are zero: with `H1` the word `ApplyMipsReloc` leaves for
kind `R_MIPS_HI16` and `L1` the word it leaves for kind `R_MIPS_LO16`,
`((H1 & 0xFFFF) << 16) + signextend16(L1 & 0xFFFF)` is `A` modulo `2^32`. -/
theorem ApplyMipsReloc_HI16_LO16_pair (bytesH : List Nat) (relocH : Nat) (bytesL : List Nat)
    (relocL A : Nat) (hH : relocH + 4 ≤ bytesH.length) (hL : relocL + 4 ≤ bytesL.length)
    (hA : A < 4294967296) (hH0 : read32 bytesH relocH &&& 0xffff = 0)
    (hL0 : read32 bytesL relocL &&& 0xffff = 0) :
    ∃ bH bL,
      ApplyMipsReloc bytesH relocH R_MIPS_HI16 A = some (0, bH) ∧
      ApplyMipsReloc bytesL relocL R_MIPS_LO16 A = some (0, bL) ∧
      ((((read32 bH relocH &&& 0xffff) <<< 16 : Nat) : Int)
          + signExtend16 (read32 bL relocL &&& 0xffff)) % 4294967296 = (A : Int) := by
  have eH := newstate_R_MIPS_HI16 (read32 bytesH relocH) A
  have eL := newstate_R_MIPS_LO16 (read32 bytesL relocL) A
  refine ⟨_, _, ApplyMipsReloc_of_newstate _ _ _ _ _ hH eH,
    ApplyMipsReloc_of_newstate _ _ _ _ _ hL eL, ?_⟩
  rw [read32_write32 _ _ _ hH, read32_write32 _ _ _ hL]
  rw [and_ffff] at hH0 hL0
  have sH : signExtend16 (read32 bytesH relocH) = 0 := by simp [signExtend16, hH0]
  have sL : signExtend16 (read32 bytesL relocL) = 0 := by simp [signExtend16, hL0]
  rw [sH, sL]
  simp only [and_ffff, Nat.shiftLeft_eq, Nat.shiftRight_eq_div_pow]
  generalize read32 bytesH relocH = WH
  generalize read32 bytesL relocL = WL
  unfold toU32 signExtend16
  norm_num
  split_ifs <;> omega

theorem ApplyMipsReloc_HI16_LO16_pair_witness :
    (0x12348000 < 4294967296 ∧ read32 [0, 0, 0x01, 0x3c] 0 &&& 0xffff = 0
      ∧ read32 [0, 0, 0x21, 0x24] 0 &&& 0xffff = 0) ∧
    ∃ bH bL,
      ApplyMipsReloc [0, 0, 0x01, 0x3c] 0 R_MIPS_HI16 0x12348000 = some (0, bH) ∧
      ApplyMipsReloc [0, 0, 0x21, 0x24] 0 R_MIPS_LO16 0x12348000 = some (0, bL) ∧
      ((((read32 bH 0 &&& 0xffff) <<< 16 : Nat) : Int)
          + signExtend16 (read32 bL 0 &&& 0xffff)) % 4294967296 = ((0x12348000 : Nat) : Int) :=
  ⟨⟨by decide, by decide, by decide⟩,
    ApplyMipsReloc_HI16_LO16_pair [0, 0, 0x01, 0x3c] 0 [0, 0, 0x21, 0x24] 0 0x12348000
      (by decide) (by decide) (by decide) (by decide) (by decide)⟩

/-- C17 (counterexample). For the alignment 3, which is not a power of two:
`Align(3, 3)` is 4 although 3 is a multiple of 3, and `Align(2, 3)` is 3
although `(2 + 3 - 1) & ~(3 - 1)` is 4. -/
theorem Align_three :
    3 % 3 = 0 ∧ Align 3 3 = 4 ∧
    2 % 3 ≠ 0 ∧ Align 2 3 = 3 ∧ ((2 + 3 - 1) % 4294967296) &&& (4294967295 - (3 - 1)) = 4 := by
  decide

theorem Align_core (r a n : Nat) (ha : 2 ≤ a) (hn : a * n = 4294967296) :
    (r % a ≠ 0 →
      (a * (r / a) + (a - 1) + 1) % 4294967296
          = a * ((r + a - 1) % 4294967296 / a % n) ∧
      (r + a - 1) / a = r / a + 1) ∧
    (r % a = 0 → (r + a - 1) / a = r / a ∧ a * (r / a) = r) := by
  have hdm := Nat.div_add_mod r a
  have ht := Nat.mod_lt r (show 0 < a by omega)
  constructor
  · intro h0
    have hx : (r + a - 1) / a = r / a + 1 := by
      have e : r + a - 1 = (r % a - 1) + a * (r / a + 1) := by
        rw [Nat.mul_succ]; omega
      rw [e, Nat.add_mul_div_left _ _ (show 0 < a by omega), Nat.div_eq_of_lt (by omega)]
      omega
    refine ⟨?_, hx⟩
    have e1 : a * (r / a) + (a - 1) + 1 = a * (r / a + 1) := by
      rw [Nat.mul_succ]; omega
    rw [e1, ← hn, Nat.mul_mod_mul_left, Nat.mod_mul_right_div_self, Nat.mod_mod, hx]
  · intro h0
    constructor
    · have e : r + a - 1 = (a - 1) + a * (r / a) := by omega
      rw [e, Nat.add_mul_div_left _ _ (show 0 < a by omega), Nat.div_eq_of_lt (by omega)]
      omega
    · omega

/-- C17 (as amended). For every running total `r` and every
power-of-two alignment `a = 2^k > 1`: `Align(r, a)` equals
`(r + a - 1) & ~(a - 1)` (in 32 bits) when `r` is not a multiple of `a`, and
equals `r` when `r` is a multiple of `a`; and whenever the least multiple of
`a` that is `>= r` is below `2^32`, the result is that multiple. -/
theorem Align_power_of_two (r k : Nat) (hk1 : 1 ≤ k) (hk : k ≤ 31) :
    (r % 2 ^ k ≠ 0 →
      Align r (2 ^ k) = ((r + 2 ^ k - 1) % 4294967296) &&& (4294967295 - (2 ^ k - 1))) ∧
    (r % 2 ^ k = 0 → Align r (2 ^ k) = r) ∧
    (2 ^ k * ((r + 2 ^ k - 1) / 2 ^ k) < 4294967296 →
      Align r (2 ^ k) = 2 ^ k * ((r + 2 ^ k - 1) / 2 ^ k) ∧
      2 ^ k ∣ Align r (2 ^ k) ∧ r ≤ Align r (2 ^ k) ∧
      ∀ m, 2 ^ k ∣ m → r ≤ m → Align r (2 ^ k) ≤ m) := by
  have hk2 : 32 - k + k = 32 := by omega
  have hn : 2 ^ k * 2 ^ (32 - k) = 4294967296 := by
    rw [← Nat.pow_add, Nat.add_comm, hk2]
  have ha : 2 ≤ 2 ^ k := by
    calc 2 = 2 ^ 1 := rfl
      _ ≤ 2 ^ k := Nat.pow_le_pow_right (by decide) hk1
  have ha32 : 2 ^ k ≤ 4294967296 := by
    rw [← hn]; exact Nat.le_mul_of_pos_right _ (Nat.two_pow_pos _)
  have hmask : (4294967295 - (2 ^ k - 1)) = (2 ^ (32 - k) - 1) <<< k := by
    rw [Nat.shiftLeft_eq, Nat.sub_mul, Nat.mul_comm, hn]
    omega
  have hand := and_shifted_mask ((r + 2 ^ k - 1) % 4294967296) k (32 - k)
  rw [← hmask] at hand
  have hor := or_low_mask r k
  have hlow := Nat.and_pow_two_sub_one_eq_mod r k
  have hm : (2 ^ k + 4294967295) % 4294967296 = 2 ^ k - 1 := by omega
  have hA : Align r (2 ^ k)
      = if r % 2 ^ k ≠ 0 then (2 ^ k * (r / 2 ^ k) + (2 ^ k - 1) + 1) % 4294967296 else r := by
    unfold Align
    simp only [hm, hlow, hor]
  obtain ⟨c1, c2⟩ := Align_core r (2 ^ k) (2 ^ (32 - k)) ha hn
  rw [hA, hand]
  generalize 2 ^ k = a at *
  refine ⟨fun h0 => ?_, fun h0 => ?_, fun hL => ?_⟩
  · rw [if_pos h0]; exact (c1 h0).1
  · rw [if_neg (not_not.mpr h0)]
  · by_cases h0 : r % a = 0
    · obtain ⟨d1, d2⟩ := c2 h0
      rw [if_neg (not_not.mpr h0), d1, d2]
      refine ⟨rfl, ⟨r / a, d2.symm⟩, Nat.le_refl _, fun m _ hm => hm⟩
    · obtain ⟨d1, d2⟩ := c1 h0
      rw [d2] at hL
      have e1 : a * (r / a) + (a - 1) + 1 = a * (r / a + 1) := by
        rw [Nat.mul_succ]; omega
      rw [if_pos h0, e1, Nat.mod_eq_of_lt hL, d2]
      have hdm := Nat.div_add_mod r a
      have ht := Nat.mod_lt r (show 0 < a by omega)
      refine ⟨rfl, ⟨r / a + 1, rfl⟩, by rw [Nat.mul_succ]; omega, ?_⟩
      rintro m ⟨c, rfl⟩ hle
      apply Nat.mul_le_mul_left
      have : r / a < c := by
        by_contra hc
        have := Nat.mul_le_mul_left a (Nat.le_of_not_lt hc)
        omega
      omega

theorem Align_power_of_two_witness :
    (1 ≤ 3 ∧ 3 ≤ 31 ∧ 5 % 2 ^ 3 ≠ 0) ∧
    Align 5 (2 ^ 3) = ((5 + 2 ^ 3 - 1) % 4294967296) &&& (4294967295 - (2 ^ 3 - 1)) ∧
    Align 5 (2 ^ 3) = 2 ^ 3 * ((5 + 2 ^ 3 - 1) / 2 ^ 3) :=
  ⟨⟨by decide, by decide, by decide⟩,
    (Align_power_of_two 5 3 (by decide) (by decide)).1 (by decide),
    ((Align_power_of_two 5 3 (by decide) (by decide)).2.2 (by decide)).1⟩

/-! ## The section indices found by name -/

theorem layoutStep_indices (st : LayoutState) (i : Nat) (sec : elf_section_t) :
    (layoutStep st i sec).1.symtab_index
        = (if sec.name = ".symtab" then i else st.symtab_index) ∧
    (layoutStep st i sec).1.linked_strtab_index
        = (if sec.name = ".symtab" then sec.sh_link else st.linked_strtab_index) ∧
    (layoutStep st i sec).1.strtab_index
        = (if sec.name = ".symtab" then st.strtab_index
            else if sec.name = ".strtab" then i else st.strtab_index) := by
  unfold layoutStep
  refine ⟨?_, ?_, ?_⟩ <;> split_ifs <;> rfl

theorem layoutLoop_symtab (secs : List elf_section_t) :
    ∀ (st : LayoutState) (i : Nat),
      ((∀ s ∈ secs, s.name ≠ ".symtab") ∧
        (layoutLoop st i secs).1.symtab_index = st.symtab_index ∧
        (layoutLoop st i secs).1.linked_strtab_index = st.linked_strtab_index) ∨
      (∃ (k : Nat) (hk : k < secs.length), (secs[k]).name = ".symtab" ∧
        (∀ (k' : Nat) (hk' : k' < secs.length), k < k' → (secs[k']).name ≠ ".symtab") ∧
        (layoutLoop st i secs).1.symtab_index = i + k ∧
        (layoutLoop st i secs).1.linked_strtab_index = (secs[k]).sh_link) := by
  induction secs with
  | nil => intro st i; left; simp [layoutLoop]
  | cons sec rest ih =>
    intro st i
    obtain ⟨e1, e2, _⟩ := layoutStep_indices st i sec
    rw [layoutLoop]
    simp only []
    rcases ih (layoutStep st i sec).1 (i + 1) with ⟨hno, h1, h2⟩ | ⟨k, hk, hn, hlast, h1, h2⟩
    · by_cases hs : sec.name = ".symtab"
      · right
        rw [if_pos hs] at e1 e2
        refine ⟨0, by simp, hs, ?_, by rw [h1, e1]; rfl, by rw [h2, e2]; rfl⟩
        intro k' hk' hlt
        cases k' with
        | zero => omega
        | succ k'' =>
          simp only [List.getElem_cons_succ]
          exact hno _ (List.getElem_mem _)
      · left
        rw [if_neg hs] at e1 e2
        refine ⟨?_, by rw [h1, e1], by rw [h2, e2]⟩
        intro s hmem
        rcases List.mem_cons.mp hmem with rfl | hmem
        · exact hs
        · exact hno s hmem
    · right
      refine ⟨k + 1, by simp; omega, by simpa using hn, ?_, by rw [h1]; omega, by simpa using h2⟩
      intro k' hk' hlt
      cases k' with
      | zero => omega
      | succ k'' =>
        simp only [List.getElem_cons_succ]
        exact hlast k'' (by simpa using hk') (by omega)

theorem layoutLoop_strtab (secs : List elf_section_t) :
    ∀ (st : LayoutState) (i : Nat),
      ((∀ s ∈ secs, s.name ≠ ".strtab") ∧
        (layoutLoop st i secs).1.strtab_index = st.strtab_index) ∨
      (∃ (k : Nat) (hk : k < secs.length), (secs[k]).name = ".strtab" ∧
        (∀ (k' : Nat) (hk' : k' < secs.length), k < k' → (secs[k']).name ≠ ".strtab") ∧
        (layoutLoop st i secs).1.strtab_index = i + k) := by
  induction secs with
  | nil => intro st i; left; simp [layoutLoop]
  | cons sec rest ih =>
    intro st i
    obtain ⟨_, _, e3⟩ := layoutStep_indices st i sec
    rw [layoutLoop]
    simp only []
    rcases ih (layoutStep st i sec).1 (i + 1) with ⟨hno, h1⟩ | ⟨k, hk, hn, hlast, h1⟩
    · by_cases hs : sec.name = ".strtab"
      · right
        have hns : ¬ sec.name = ".symtab" := by rw [hs]; decide
        rw [if_neg hns, if_pos hs] at e3
        refine ⟨0, by simp, hs, ?_, by rw [h1, e3]; rfl⟩
        intro k' hk' hlt
        cases k' with
        | zero => omega
        | succ k'' =>
          simp only [List.getElem_cons_succ]
          exact hno _ (List.getElem_mem _)
      · left
        have e3' : (layoutStep st i sec).1.strtab_index = st.strtab_index := by
          rw [e3]; split_ifs <;> rfl
        refine ⟨?_, by rw [h1, e3']⟩
        intro s hmem
        rcases List.mem_cons.mp hmem with rfl | hmem
        · exact hs
        · exact hno s hmem
    · right
      refine ⟨k + 1, by simp; omega, by simpa using hn, ?_, by rw [h1]; omega⟩
      intro k' hk' hlt
      cases k' with
      | zero => omega
      | succ k'' =>
        simp only [List.getElem_cons_succ]
        exact hlast k'' (by simpa using hk') (by omega)

theorem layout_symtab (sections : List elf_section_t) :
    ((∀ s ∈ sections.tail, s.name ≠ ".symtab") ∧ (layout sections).1.symtab_index = 0) ∨
    (∃ (k : Nat) (hk : k < sections.tail.length), (sections.tail[k]).name = ".symtab" ∧
      (∀ (k' : Nat) (hk' : k' < sections.tail.length), k < k' →
        (sections.tail[k']).name ≠ ".symtab") ∧
      (layout sections).1.symtab_index = 1 + k ∧
      (layout sections).1.linked_strtab_index = (sections.tail[k]).sh_link) := by
  cases sections with
  | nil => left; simp [layout]
  | cons s0 rest =>
    rcases layoutLoop_symtab rest ⟨0, 0, 0, 0⟩ 1 with ⟨h1, h2, _⟩ | h
    · left; exact ⟨h1, h2⟩
    · right; exact h

theorem layout_strtab (sections : List elf_section_t) :
    ((∀ s ∈ sections.tail, s.name ≠ ".strtab") ∧ (layout sections).1.strtab_index = 0) ∨
    (∃ (k : Nat) (hk : k < sections.tail.length), (sections.tail[k]).name = ".strtab" ∧
      (∀ (k' : Nat) (hk' : k' < sections.tail.length), k < k' →
        (sections.tail[k']).name ≠ ".strtab") ∧
      (layout sections).1.strtab_index = 1 + k) := by
  cases sections with
  | nil => left; simp [layout]
  | cons s0 rest =>
    rcases layoutLoop_strtab rest ⟨0, 0, 0, 0⟩ 1 with ⟨h1, h2⟩ | h
    · left; exact ⟨h1, h2⟩
    · right; exact h

theorem tail_getElem (l : List elf_section_t) (k : Nat) (hk : k < l.tail.length) :
    1 + k < l.length ∧ l[1 + k]? = some (l.tail[k]) := by
  cases l with
  | nil => simp at hk
  | cons s0 rest =>
    have hk2 : k < rest.length := by simpa using hk
    refine ⟨by simp; omega, ?_⟩
    rw [Nat.add_comm, List.getElem?_cons_succ]
    simp [List.getElem?_eq_getElem hk2]

/-- C14 (counterexample). `noSymtabFile` has a valid header and no section
named `.symtab`; with an allocator that returns null for the section table,
`Load` returns `OomHit`, not `NotRelocatable`. -/
theorem Load_noSymtab_oom :
    noSymtabFile.ei_magic = [0x7f, 69, 76, 70] ∧ noSymtabFile.e_type = REL_TYPE ∧
    noSymtabFile.e_shentsize = sizeof_elf_section_t ∧
    (∀ s ∈ noSymtabFile.sections.tail, s.name ≠ ".symtab") ∧
    (ImageImpl.Load oomHost ImageImpl.fresh (some noSymtabFile)).ret
      = some (Stop.error ErlLoadError.OomHit) := by
  decide

/-- With an empty section table `sections[header.e_shstrndx]` lies outside the
array: `Load` leaves the array before it reaches the sanity checks. -/
theorem Load_emptyTable :
    (∀ s ∈ emptyTableFile.sections.tail, s.name ≠ ".symtab") ∧
    namesInRange emptyTableFile emptyTableFile.sections.tail = false ∧
    (ImageImpl.Load sampleHost ImageImpl.fresh (some emptyTableFile)).ret
      = some Stop.outOfRange := by
  decide

/-- C14 (as amended). For every container with a valid header whose
`e_shstrndx` names a section of the table and whose sections from index 1 on
have their names inside the section-name table, once the section table has
been allocated: if no section at index >= 1 is named `.symtab`, or none is
named `.strtab`, or the `sh_link` of the `.symtab` section differs from the
index of the `.strtab` section located by name (of several sections of one
name the loop keeps the last), `Load` returns `NotRelocatable` with no member
touched (the image buffer is not allocated) and no relocation applied. -/
theorem Load_not_relocatable (host : Host) (self : ImageImpl) (f : ErlFile)
    (hmagic : f.ei_magic = [0x7f, 69, 76, 70]) (ht : f.e_type = REL_TYPE)
    (hs : f.e_shentsize = sizeof_elf_section_t)
    (halloc : (host.alloc (f.sections.length * sizeof_elf_section_t)).isSome = true)
    (hnames : namesInRange f f.sections.tail = true)
    (hcase : (∀ s ∈ f.sections.tail, s.name ≠ ".symtab") ∨
      (∀ s ∈ f.sections.tail, s.name ≠ ".strtab") ∨
      (∃ (k : Nat) (hk : k < f.sections.tail.length) (j : Nat) (hj : j < f.sections.tail.length),
        (f.sections.tail[k]).name = ".symtab" ∧
        (∀ (k' : Nat) (hk' : k' < f.sections.tail.length), k < k' →
          (f.sections.tail[k']).name ≠ ".symtab") ∧
        (f.sections.tail[j]).name = ".strtab" ∧
        (∀ (j' : Nat) (hj' : j' < f.sections.tail.length), j < j' →
          (f.sections.tail[j']).name ≠ ".strtab") ∧
        (f.sections.tail[k]).sh_link ≠ j + 1)) :
    (ImageImpl.Load host self (some f)).ret = some (Stop.error ErlLoadError.NotRelocatable) ∧
    (ImageImpl.Load host self (some f)).self = self ∧
    (ImageImpl.Load host self (some f)).entry = none := by
  have hm : ¬ (f.ei_magic.getD 0 0 ≠ 0o77 ∧ f.ei_magic.getD 1 0 ≠ 69 ∧ f.ei_magic.getD 2 0 ≠ 76
      ∧ f.ei_magic.getD 3 0 ≠ 70) := by
    rw [hmagic]; decide
  obtain ⟨v, hv⟩ := Option.isSome_iff_exists.mp halloc
  obtain ⟨shstrsec, hshstr, hin⟩ := namesInRange_elim f f.sections.tail hnames
  have key : (layout f.sections).1.symtab_index = 0 ∨ (layout f.sections).1.strtab_index = 0 ∨
      (layout f.sections).1.strtab_index ≠ (layout f.sections).1.linked_strtab_index := by
    rcases layout_symtab f.sections with ⟨hno, h0⟩ | ⟨k, hk, hkn, hklast, hki, hkl⟩
    · exact Or.inl h0
    · rcases layout_strtab f.sections with ⟨hno, h0⟩ | ⟨j, hj, hjn, hjlast, hji⟩
      · exact Or.inr (Or.inl h0)
      · rcases hcase with h | h | h
        · exact absurd hkn (h _ (List.getElem_mem _))
        · exact absurd hjn (h _ (List.getElem_mem _))
        · obtain ⟨k', hk', j', hj', a1, a2, a3, a4, a5⟩ := h
          have ek : k' = k := by
            rcases Nat.lt_trichotomy k' k with c | c | c
            · exact absurd hkn (a2 k hk c)
            · exact c
            · exact absurd a1 (hklast k' hk' c)
          have ej : j' = j := by
            rcases Nat.lt_trichotomy j' j with c | c | c
            · exact absurd hjn (a4 j hj c)
            · exact c
            · exact absurd a3 (hjlast j' hj' c)
          subst ek
          subst ej
          right; right
          rw [hji, hkl]
          intro e
          exact a5 (by omega)
  unfold ImageImpl.Load
  simp only []
  rw [if_neg hm, if_neg (not_not.mpr ht), if_neg (not_not.mpr hs.symm)]
  simp only [hv, hshstr]
  rw [if_neg (not_not.mpr hin)]
  by_cases c1 : (layout f.sections).1.symtab_index = 0
  · rw [if_pos c1]; exact ⟨rfl, rfl, rfl⟩
  · rw [if_neg c1]
    by_cases c2 : (layout f.sections).1.strtab_index = 0
    · rw [if_pos c2]; exact ⟨rfl, rfl, rfl⟩
    · rw [if_neg c2]
      have c3 : (layout f.sections).1.strtab_index ≠ (layout f.sections).1.linked_strtab_index := by
        rcases key with h | h | h
        · exact absurd h c1
        · exact absurd h c2
        · exact h
      rw [if_pos c3]; exact ⟨rfl, rfl, rfl⟩

theorem Load_not_relocatable_witness :
    (namesInRange mislinkedFile mislinkedFile.sections.tail = true ∧
      (mislinkedFile.sections.tail[3]).name = ".symtab" ∧
      (mislinkedFile.sections.tail[3]).sh_link = 2 ∧
      (mislinkedFile.sections.tail[4]).name = ".strtab" ∧
      (ImageImpl.Load sampleHost ImageImpl.fresh (some mislinkedFile)).ret
        = some (Stop.error ErlLoadError.NotRelocatable) ∧
      (ImageImpl.Load sampleHost ImageImpl.fresh (some mislinkedFile)).self = ImageImpl.fresh ∧
      (ImageImpl.Load sampleHost ImageImpl.fresh (some mislinkedFile)).entry = none) ∧
    (namesInRange twoStrtabFile twoStrtabFile.sections.tail = true ∧
      (twoStrtabFile.sections.tail[1]).name = ".strtab" ∧
      (twoStrtabFile.sections.tail[3]).name = ".symtab" ∧
      (twoStrtabFile.sections.tail[3]).sh_link = 2 ∧
      (twoStrtabFile.sections.tail[4]).name = ".strtab" ∧
      (ImageImpl.Load sampleHost ImageImpl.fresh (some twoStrtabFile)).ret
        = some (Stop.error ErlLoadError.NotRelocatable) ∧
      (ImageImpl.Load sampleHost ImageImpl.fresh (some twoStrtabFile)).self = ImageImpl.fresh ∧
      (ImageImpl.Load sampleHost ImageImpl.fresh (some twoStrtabFile)).entry = none) :=
  ⟨⟨by decide, by decide, by decide, by decide,
    Load_not_relocatable sampleHost ImageImpl.fresh mislinkedFile (by decide) (by decide)
      (by decide) (by decide) (by decide)
      (Or.inr (Or.inr ⟨3, by decide, 4, by decide, by decide, by decide, by decide, by decide,
        by decide⟩))⟩,
   ⟨by decide, by decide, by decide, by decide, by decide,
    Load_not_relocatable sampleHost ImageImpl.fresh twoStrtabFile (by decide) (by decide)
      (by decide) (by decide) (by decide)
      (Or.inr (Or.inr ⟨3, by decide, 4, by decide, by decide, by decide, by decide, by decide,
        by decide⟩))⟩⟩

/-- C20 (counterexample). Four containers that pass every validation check of
`Load` and make it leave an array: a relocation naming symbol 9 of 4, a
relocation section whose `sh_info` is 77 of 7 sections, an exported symbol
whose `st_shndx` is `0xFFF1`, and a relocation target at offset `0x1000` of a
12-byte image. -/
theorem Load_unchecked_indices :
    (passesValidation symbolNumberFile ∧
      (ImageImpl.Load sampleHost ImageImpl.fresh (some symbolNumberFile)).ret
        = some Stop.outOfRange) ∧
    (passesValidation shInfoFile ∧
      (ImageImpl.Load sampleHost ImageImpl.fresh (some shInfoFile)).ret = some Stop.outOfRange) ∧
    (passesValidation shndxFile ∧
      (ImageImpl.Load sampleHost ImageImpl.fresh (some shndxFile)).ret = some Stop.outOfRange) ∧
    (passesValidation targetOffsetFile ∧
      (ImageImpl.Load sampleHost ImageImpl.fresh (some targetOffsetFile)).ret
        = some Stop.outOfRange) := by
  decide

/-- C20 (as amended). For every container that passes all of `Load`'s
validation checks, the section indices `Load` finds by name are in range:
`symtab_index`, `strtab_index` and the `sh_link` of the `.symtab` section are
at least 1 and below `e_shnum`, and they name sections called `.symtab` and
`.strtab`. -/
theorem Load_validated_indices (f : ErlFile) (hv : passesValidation f) :
    (1 ≤ (layout f.sections).1.symtab_index ∧
      (layout f.sections).1.symtab_index < f.sections.length) ∧
    (1 ≤ (layout f.sections).1.strtab_index ∧
      (layout f.sections).1.strtab_index < f.sections.length) ∧
    (layout f.sections).1.linked_strtab_index = (layout f.sections).1.strtab_index ∧
    (∃ s, f.sections[(layout f.sections).1.symtab_index]? = some s ∧ s.name = ".symtab" ∧
      s.sh_link = (layout f.sections).1.strtab_index) ∧
    (∃ s, f.sections[(layout f.sections).1.strtab_index]? = some s ∧ s.name = ".strtab") := by
  obtain ⟨_, _, _, x1, x2, x3, _⟩ := hv
  have htail := tail_getElem f.sections
  rcases layout_symtab f.sections with ⟨_, h0⟩ | ⟨k, hk, hkn, _, hki, hkl⟩
  · exact absurd h0 x1
  · rcases layout_strtab f.sections with ⟨_, h0⟩ | ⟨j, hj, hjn, _, hji⟩
    · exact absurd h0 x2
    · obtain ⟨a1, a2⟩ := htail k hk
      obtain ⟨b1, b2⟩ := htail j hj
      refine ⟨⟨by omega, by omega⟩, ⟨by omega, by omega⟩, x3.symm, ?_, ?_⟩
      · exact ⟨_, by rw [hki]; exact a2, hkn, by rw [← hkl, ← x3]⟩
      · exact ⟨_, by rw [hji]; exact b2, hjn⟩

theorem Load_validated_indices_witness :
    passesValidation sampleFile ∧
    (1 ≤ (layout sampleFile.sections).1.symtab_index ∧
      (layout sampleFile.sections).1.symtab_index < sampleFile.sections.length) ∧
    (1 ≤ (layout sampleFile.sections).1.strtab_index ∧
      (layout sampleFile.sections).1.strtab_index < sampleFile.sections.length) :=
  ⟨by decide, (Load_validated_indices sampleFile (by decide)).1,
    (Load_validated_indices sampleFile (by decide)).2.1⟩

/-! ## The loaded image -/

theorem layoutStep_sh_type (st : LayoutState) (i : Nat) (sec : elf_section_t) :
    (layoutStep st i sec).2.sh_type = sec.sh_type := by
  unfold layoutStep
  split_ifs <;> rfl

theorem layoutLoop_sh_type (secs : List elf_section_t) :
    ∀ (st : LayoutState) (i : Nat) (P : Nat → Prop), (∀ s ∈ secs, P s.sh_type) →
      ∀ s ∈ (layoutLoop st i secs).2, P s.sh_type := by
  induction secs with
  | nil => intro st i P _ s hs; simp [layoutLoop] at hs
  | cons sec rest ih =>
    intro st i P h s hs
    rw [layoutLoop] at hs
    rcases List.mem_cons.mp hs with rfl | hs
    · rw [layoutStep_sh_type]; exact h sec (List.mem_cons_self _ _)
    · exact ih _ _ P (fun x hx => h x (List.mem_cons_of_mem _ hx)) s hs

theorem writeBytes_append (pre fresh : List Nat) (p a : Nat) (c : List Nat)
    (hp : pre.length = p) (hpa : p ≤ a) :
    writeBytes (pre ++ fresh.drop p) a c
      = (pre ++ ((fresh.drop p).take (a - p) ++ c)) ++ fresh.drop (a + c.length) := by
  have t1 : pre.take a = pre := List.take_of_length_le (by omega)
  have t2 : pre.drop (a + c.length) = [] := List.drop_of_length_le (by omega)
  have t3 : (fresh.drop p).drop (a + c.length - p) = fresh.drop (a + c.length) := by
    rw [List.drop_drop]
    congr 1
    omega
  unfold writeBytes
  rw [List.take_append_eq_append_take, List.drop_append_eq_append_drop, hp, t1, t2, t3]
  simp

theorem loadSections_image (f : ErlFile) (fresh : List Nat) (out : List elf_section_t) :
    ∀ (p : Nat) (pre b : List Nat), pre.length = p →
      (∀ s ∈ out, s.sh_type ≠ NOBITS) →
      (∀ a ∈ (out.filter allocatable).map (fun s => (s.sh_addr, s.sh_size)), p ≤ a.1) →
      List.Pairwise (fun a b : Nat × Nat => a.1 + a.2 ≤ b.1)
        ((out.filter allocatable).map (fun s => (s.sh_addr, s.sh_size))) →
      loadSections f (pre ++ fresh.drop p) out = (b, none) →
      b = pre ++ imageFrom f fresh p out := by
  induction out with
  | nil =>
    intro p pre b _ _ _ _ h
    simp only [loadSections, Prod.mk.injEq, and_true] at h
    rw [← h]; rfl
  | cons s rest ih =>
    intro p pre b hp hno hge hpw h
    have hno' : ∀ x ∈ rest, x.sh_type ≠ NOBITS := fun x hx => hno x (List.mem_cons_of_mem _ hx)
    rw [loadSections] at h
    by_cases hpb : s.sh_type = PROGBITS
    · have hal : allocatable s = true := by simp [allocatable, hpb]
      simp only [List.filter_cons, hal, if_true, List.map_cons, List.pairwise_cons,
        List.mem_cons, forall_eq_or_imp] at hge hpw
      obtain ⟨hpa, hge'⟩ := hge
      obtain ⟨hnext, hpw'⟩ := hpw
      have hlen : (f.Read s.sh_offset s.sh_size).length ≤ s.sh_size := by
        simp [ErlFile.Read, List.length_take]
      simp only [loadSection, hpb, if_true] at h
      by_cases hin : s.sh_addr + (f.Read s.sh_offset s.sh_size).length
          ≤ (pre ++ List.drop p fresh).length
      · rw [if_pos hin] at h
        simp only [] at h
        rw [writeBytes_append pre fresh p s.sh_addr _ hp hpa] at h
        have := ih (s.sh_addr + (f.Read s.sh_offset s.sh_size).length)
          (pre ++ ((fresh.drop p).take (s.sh_addr - p) ++ f.Read s.sh_offset s.sh_size)) b
          (by
            have e := congrArg List.length (writeBytes_append pre fresh p s.sh_addr
              (f.Read s.sh_offset s.sh_size) hp hpa)
            rw [length_writeBytes _ _ _ hin] at e
            simp only [List.length_append, List.length_drop] at e hin ⊢
            simp only [List.length_take, List.length_drop]
            omega)
          hno' (fun a ha => by have := hnext a ha; simp only [] at this; omega) hpw' h
        rw [this, imageFrom, if_pos hpb]
        simp [List.append_assoc]
      · rw [if_neg hin] at h
        simp at h
    · have hnb : s.sh_type ≠ NOBITS := hno s (List.mem_cons_self _ _)
      have hal : allocatable s = false := by simp [allocatable, hpb, hnb]
      simp only [List.filter_cons, hal, Bool.false_eq_true, if_false] at hge hpw
      simp only [loadSection, hpb, hnb, if_false] at h
      rw [imageFrom, if_neg hpb]
      exact ih p pre b hp hno' hge hpw h

theorem relocSections_no_entries (host : Host) (f : ErlFile) (base : Nat)
    (sections : List elf_section_t) (symtab : List elf_symbol_t)
    (hnorel : ∀ i, f.relocs i = []) (rest : List elf_section_t) :
    ∀ (bytes : List Nat) (i : Nat),
      (relocSections host f base sections symtab bytes i rest).1 = bytes := by
  induction rest with
  | nil => intro bytes i; rfl
  | cons sec rest ih =>
    intro bytes i
    rw [relocSections]
    have e : (relocSection host f base sections symtab bytes i sec).1 = bytes := by
      unfold relocSection
      rw [hnorel i]
      split_ifs
      · rfl
      · rfl
      · cases host.alloc (([] : List elf_reloca_t).length * sizeof_elf_reloca_t) <;> rfl
    cases hres : relocSection host f base sections symtab bytes i sec with
    | mk b stop =>
      rw [hres] at e
      simp only at e
      subst e
      cases stop with
      | none => exact ih b (i + 1)
      | some e => rfl

theorem freshBytes_zero (host : Host) (f : ErlFile) (hz : ∀ i, host.garbage i % 256 = 0) :
    freshBytes host f = List.replicate (layout f.sections).1.fullsize 0 := by
  unfold freshBytes
  rw [List.eq_replicate_iff]
  constructor
  · simp
  · intro b hb
    obtain ⟨i, _, rfl⟩ := List.mem_map.mp hb
    exact hz i

/-- C12 (counterexample). `gapFile` has only PROGBITS sections and no
relocation entries; it loads, and the two bytes of padding between `.text` and
`.data` hold what the fresh buffer held (`0xAA`), not zero. `alignZeroFile`
loads as well; its `.data`, of alignment 0, is laid over `.text`, and the
image is the 8 bytes of `.data` alone. -/
theorem Load_gap_not_zeroed :
    ((ImageImpl.Load sampleHost ImageImpl.fresh (some gapFile)).ret = none ∧
      (ImageImpl.Load sampleHost ImageImpl.fresh (some gapFile)).self.bytes
        = some [1, 2, 3, 4, 5, 6, 0xAA, 0xAA, 9, 10, 11, 12] ∧
      (ImageImpl.Load sampleHost ImageImpl.fresh (some gapFile)).self.bytes
        ≠ some ([1, 2, 3, 4, 5, 6] ++ [0, 0] ++ [9, 10, 11, 12])) ∧
    ((ImageImpl.Load sampleHost ImageImpl.fresh (some alignZeroFile)).ret = none ∧
      (ImageImpl.Load sampleHost ImageImpl.fresh (some alignZeroFile)).self.bytes
        = some [21, 22, 23, 24, 25, 26, 27, 28] ∧
      (ImageImpl.Load sampleHost ImageImpl.fresh (some alignZeroFile)).self.bytes
        ≠ some ([1, 2, 3, 4] ++ [21, 22, 23, 24, 25, 26, 27, 28])) := by
  decide

/-- C12 (as amended). For every container that loads, whose only allocatable
sections are PROGBITS, with alignments of at least 1 and sizes plus alignments
below `2^32`, and which has no relocation entries: the image buffer is
byte-for-byte the concatenation, in file order, of those sections' file
contents, each preceded by its alignment gap, and the bytes of a gap are those
the freshly allocated buffer held; they are zero when the allocator hands out
zeroed memory. -/
theorem Load_image_bytes (host : Host) (self : ImageImpl) (f : ErlFile)
    (hok : (ImageImpl.Load host self (some f)).ret = none)
    (honly : ∀ s ∈ f.sections.tail, s.sh_type ≠ NOBITS)
    (halign : ∀ s ∈ f.sections.tail, allocatable s = true → 1 ≤ s.sh_addralign)
    (hfit : roomBound f.sections.tail < 4294967296)
    (hnorel : ∀ i, f.relocs i = []) :
    (ImageImpl.Load host self (some f)).self.bytes
      = some (imageFrom f (freshBytes host f) 0 (layout f.sections).2.tail) ∧
    ((∀ i, host.garbage i % 256 = 0) →
      (ImageImpl.Load host self (some f)).self.bytes
        = some (imageFrom f (List.replicate (layout f.sections).1.fullsize 0) 0
            (layout f.sections).2.tail)) := by
  obtain ⟨_, base, b1, b2, t, _, hload, hrel, _, hself, _⟩ := Load_of_ok host self f hok
  have hb : b2 = b1 := by
    have := relocSections_no_entries host f base (layout f.sections).2 (symtabOf f) hnorel
      (layout f.sections).2 b1 0
    rw [hrel] at this
    exact this
  have himg : b1 = imageFrom f (freshBytes host f) 0 (layout f.sections).2.tail := by
    cases hsec : f.sections with
    | nil =>
      rw [hsec] at hload
      simp only [layout, List.tail_nil, loadSections, Prod.mk.injEq, and_true] at hload
      simp [layout, imageFrom, ← hload]
    | cons s0 rest =>
      rw [hsec] at hload honly halign hfit
      simp only [List.tail_cons] at honly halign hfit
      simp only [layout, List.tail_cons] at hload ⊢
      obtain ⟨r1, r2, _, _⟩ := layoutLoop_ranges rest ⟨0, 0, 0, 0⟩ 1 halign (by simpa using hfit)
      have hno := layoutLoop_sh_type rest ⟨0, 0, 0, 0⟩ 1 (fun ty => ty ≠ NOBITS) honly
      have := loadSections_image f (freshBytes host f) (layoutLoop ⟨0, 0, 0, 0⟩ 1 rest).2 0 [] b1
        rfl hno (fun a ha => (r1 a ha).1) r2 (by simpa [hsec, layout] using hload)
      simpa using this
  have e1 : (ImageImpl.Load host self (some f)).self.bytes
      = some (imageFrom f (freshBytes host f) 0 (layout f.sections).2.tail) := by
    rw [hself, hb, ← himg]
  refine ⟨e1, fun hz => ?_⟩
  rw [e1, freshBytes_zero host f hz]

theorem Load_image_bytes_witness :
    (ImageImpl.Load sampleHost ImageImpl.fresh (some gapFile)).ret = none ∧
    (∀ s ∈ gapFile.sections.tail, s.sh_type ≠ NOBITS) ∧
    roomBound gapFile.sections.tail < 4294967296 ∧
    (ImageImpl.Load sampleHost ImageImpl.fresh (some gapFile)).self.bytes
      = some (imageFrom gapFile (freshBytes sampleHost gapFile) 0
          (layout gapFile.sections).2.tail) :=
  ⟨by decide, by decide, by decide,
    (Load_image_bytes sampleHost ImageImpl.fresh gapFile (by decide) (by decide) (by decide)
      (by decide) (fun _ => rfl)).1⟩

end elfldr.erl
